import Mathlib

/-!
Verification development for the crypto-arbitrage framework
(`crypto/path_optimizer.py`, `crypto/amount_optimizer.py`, `crypto/utils.py`).

Shallow embedding conventions:
* A graph node `(exchange, currency)` (a flat string `"exc_cur"` in the source,
  always manipulated through `split('_')`) is embedded as the pair `Node`.
* Python dicts are embedded as association lists with last-write-wins update
  (`dictSet`) and lookup (`alookup`); numpy float matrices that are filled by a
  sequence of element assignments are embedded as the list of assignments in
  program order, read back by `applyWrites` (last write wins, default 0).
* Machine floats are embedded as `ℚ`; `np.nan_to_num(np.inf)` is the largest
  IEEE-754 double, embedded exactly as `floatMax`.
* Code that can raise is embedded in `Except String` / `Option`, the error
  string naming the Python exception.
-/

namespace CryptoArb

/-- A graph node: `(exchange, currency)`, the source's `"exc_cur"` string. -/
abbrev Node := String × String

/-- One entry of the per-exchange ticker dict (`fetch_tickers` output):
`bid`, `ask` and the optional `baseVolume`. -/
structure Ticker where
  bid : ℚ
  ask : ℚ
  baseVolume : Option ℚ
  deriving DecidableEq, Repr

/-- One entry of `withdrawal_fee`: `{usd_fee, usd_rate, coin_fee}`. -/
structure WFee where
  usd_fee : ℚ
  usd_rate : ℚ
  coin_fee : ℚ
  deriving DecidableEq, Repr

/-- Association-list lookup (Python `d[k]` / `d.get(k)`): first matching key. -/
def alookup [DecidableEq κ] : List (κ × ν) → κ → Option ν
  | [], _ => none
  | kv :: rest, k => if kv.1 = k then some kv.2 else alookup rest k

/-- Python `d[k] = v` on a dict represented as an association list (keys
unique): replace the value in place if the key exists (keeping its position,
as Python dicts keep insertion order), else append. -/
def dictSet [DecidableEq κ] : List (κ × ν) → κ → ν → List (κ × ν)
  | [], k, v => [(k, v)]
  | kv :: rest, k, v => if kv.1 = k then (k, v) :: rest else kv :: dictSet rest k v

/-- The value left in `d[k]` after the sequence of assignments `ws` is applied
in order to a dict/array: the last write to `k` wins. -/
def lastAssoc [DecidableEq κ] (ws : List (κ × ν)) (k : κ) : Option ν :=
  ws.foldl (fun acc w => if w.1 = k then some w.2 else acc) none

/-- A cell of an `N × N` numpy matrix. -/
abbrev Cell := ℕ × ℕ

/-- Read one cell of a numpy matrix that started as `np.zeros` and then
received the element assignments `ws` in program order. -/
def applyWrites (ws : List (Cell × ℚ)) (c : Cell) : ℚ :=
  (lastAssoc ws c).getD 0

/-! ### `PathOptimizer.set_params` (path_optimizer.py lines 115-135)

`set_params` first installs the default settings and then, for each supplied
`(key, val)`, does `setattr(self, key, val)` when `hasattr(self, key)` and
raises `ValueError` otherwise.  `hasattr` is true for every attribute of the
object, so every class attribute *and method* of `PathOptimizer` (lines 22-60
and every `def` in the class; the docplex `Model` base class contributes even
more, e.g. `solve`) passes the check.  `pathOptimizerAttrs` lists the names
defined by the class itself. -/

/-- Attribute names of `PathOptimizer` itself: the class-level attributes
(lines 22-60) and the methods defined in the class body.  `hasattr` also
accepts inherited `docplex.mp.model.Model` attributes, which only enlarges
this list. -/
def pathOptimizerAttrs : List String :=
  ["length", "path_length", "currency_set", "exchanges",
   "transit_price_matrix", "trading_fee", "interex_trading_size",
   "withdrawal_fee", "include_fiat", "inter_exchange_trading", "fiat_set",
   "run_times", "refresh_time", "var_location", "commission_matrix",
   "vol_matrix", "currency2index", "index2currency", "required_currencies",
   "crypto_prices", "min_trading_limit", "balance_dict", "price",
   "inter_convert_list", "consider_inter_exc_bal", "consider_init_bal",
   "print_content", "simulated_bal", "obj", "var", "x", "xs", "path",
   "find_arbitrage", "set_params", "init_currency_info",
   "update_transit_price", "update_withdrawal_fee", "update_balance",
   "update_commission_fee", "update_ref_coin_price", "set_constraints",
   "update_objectives", "update_vol_matrix", "get_inter_convert_list",
   "parallel_fetch_tickers", "update_changeable_constraint",
   "get_var_location", "have_opportunity"]

/-- The `for key, val in params.items()` loop of `set_params` (lines 131-135):
starting from the attribute state `st` (the object after the default
assignments), each parameter whose name is an existing attribute is
`setattr`, any other name raises `ValueError`. -/
def set_params {α : Type} (st : List (String × α)) (params : List (String × α)) :
    Except String (List (String × α)) :=
  params.foldlM
    (fun s kv =>
      if kv.1 ∈ pathOptimizerAttrs then Except.ok (dictSet s kv.1 kv.2)
      else Except.error (kv.1 ++ " is not a valid attribute in model"))
    st

/-! ### `PathOptimizer.update_changeable_constraint` (path_optimizer.py lines 388-415)

The funded-node ("changeable") constraint.  Only the state touched by the
function is carried: the configuration flags, the balance snapshot
(`balance_dict`, node name ↦ `usd_balance`), the previously published
`required_currencies`, the `currency2index` table and the model's constraint
named `'changeable'`.  The constraint `Σ_{i ∈ required} Σ_j x[i,j] ≥ 1e-7 Σ x`
is determined by its row-index list, so the model slot `changeable` stores
that list (`none` = no constraint of that name in the model). -/

/-- State read and written by `update_changeable_constraint`. -/
structure ChState where
  consider_init_bal : Bool
  min_trading_limit : ℚ
  currency2index : String → ℕ
  balance_dict : List (String × ℚ)
  required_currencies : List String
  changeable : Option (List ℕ)

/-- Stable insertion of one element into a list already sorted by descending
second component: the element goes in front of the first strictly-smaller
entry (so equal entries keep their relative order, as Python's stable
`sorted` does). -/
def insertDesc (x : String × ℚ) : List (String × ℚ) → List (String × ℚ)
  | [] => [x]
  | y :: ys => if y.2 < x.2 then x :: y :: ys else y :: insertDesc x ys

/-- Python's stable `sorted(l, key=lambda x: x[-1], reverse=True)`. -/
def sortDescBySnd : List (String × ℚ) → List (String × ℚ)
  | [] => []
  | x :: xs => insertDesc x (sortDescBySnd xs)

/-- Lines 395-398: the funded-node list, i.e. the names of the balance
entries with `usd_balance >= min_trading_limit`, sorted by descending USD
balance. -/
def fundedList (min_limit : ℚ) (bal : List (String × ℚ)) : List String :=
  (sortDescBySnd (bal.filter (fun kv => min_limit ≤ kv.2))).map Prod.fst

/-- `update_changeable_constraint` (lines 388-415), one call.  When
`consider_init_bal` holds, the funded list is computed and published as
`required_currencies`; if it is empty or unchanged nothing is done to the
model, otherwise the `'changeable'` constraint is (re)installed with the new
required row indices. -/
def update_changeable_constraint (s : ChState) : ChState :=
  if s.consider_init_bal then
    let required := fundedList s.min_trading_limit s.balance_dict
    let same := required = s.required_currencies
    let s' := { s with required_currencies := required }
    if required = [] then s'
    else if same then s'
    else { s' with changeable := some (required.map s.currency2index) }
  else s

/-- A sequence of `find_arbitrage` calls as seen by
`update_changeable_constraint`: each call first replaces the balance snapshot
(`update_balance`) and then runs the constraint update. -/
def runChUpdates (s : ChState) (bs : List (List (String × ℚ))) : ChState :=
  bs.foldl (fun s b => update_changeable_constraint { s with balance_dict := b }) s

/-- The funded list of the last snapshot in `bs` whose funded list is
nonempty (recursing head-first so the *later* snapshots win). -/
def lastNonemptyFunded (min_limit : ℚ) : List (List (String × ℚ)) → Option (List String)
  | [] => none
  | b :: rest =>
    match lastNonemptyFunded min_limit rest with
    | some r => some r
    | none =>
      if fundedList min_limit b = [] then none else some (fundedList min_limit b)

/-! ### `PathOptimizer._sort_list` (path_optimizer.py lines 345-373)

The walk that assembles the solver's nonzero edges into a path.  `first_num`
is the dict comprehension `{i[0]: i for i in tuple_list}`; the `while True`
loop follows `first_num[item[1]]` until an edge is revisited, raising
`KeyError` when some tail is no head.  The loop is embedded with explicit
fuel (`edges.length + 1` always suffices, which is proved, not assumed);
`none` models a raised exception. -/

/-- The dict comprehension `{i[0]: i for i in tuple_list}` (line 351). -/
def firstNum [DecidableEq α] (edges : List (α × α)) : List (α × (α × α)) :=
  edges.foldl (fun acc e => dictSet acc e.1 e) []

/-- The `while True` walk of `_sort_list` (lines 364-370).  `none` models a
`KeyError` on `first_num[item[1]]` (or exhausted fuel, which
`sort_list_total` below shows cannot happen for closed edge sets). -/
def sortListLoop [DecidableEq α] (fn : List (α × (α × α))) :
    ℕ → (α × α) → List (α × α) → Option (List (α × α))
  | 0, _, _ => none
  | fuel + 1, item, output =>
    match alookup fn item.2 with
    | none => none
    | some next =>
      if next ∈ output then some output
      else sortListLoop fn fuel next (output ++ [next])

/-- `_sort_list` (lines 345-373): pick the seed edge (the first
`required_currencies` entry that is a head, else the first edge), then walk
head-to-tail until an edge repeats.  `none` models a raised `KeyError`. -/
def sort_list [DecidableEq α] (required : List α) (edges : List (α × α)) :
    Option (List (α × α)) :=
  match edges with
  | [] => some []
  | e0 :: _ =>
    let fn := firstNum edges
    let seed :=
      match required.find? (fun c => (alookup fn c).isSome) with
      | some c => (alookup fn c).getD e0
      | none => e0
    sortListLoop fn (edges.length + 1) seed [seed]

/-! ### `PathOptimizer.find_arbitrage`, post-solve part (path_optimizer.py lines 103-112)

`ms = self.solve()` is the external CPLEX call; docplex returns `None` when
no solution is available, in which case line 105 (`ms.get_values`) raises
`AttributeError`.  When a solution exists, the nonzero entries of `xs`
(already translated to currency-name pairs) are sorted into a path by
`_sort_list` and `self.obj = np.exp(self.objective_value) - 1`.  `np.exp` is
passed in as an abstract function `e : ℚ → ℚ`; the objective value of a 0/1
solution is the sum of the selected edges' log-weights. -/

/-- The solver's objective value `Σ w[i,j] · x[i,j]` for the 0/1 solution
whose selected edges are `edges`, with log-weight function `w`. -/
def objectiveValue (w : String × String → ℚ) (edges : List (String × String)) : ℚ :=
  (edges.map w).sum

/-- Lines 103-109 of `find_arbitrage`: `sol` is the solver outcome (`none` =
docplex returned no solution, e.g. infeasible) carrying the selected edges in
row-major order.  Returns the published `(path, profit rate)`, or the raised
exception. -/
def findArbitragePost (e : ℚ → ℚ) (w : String × String → ℚ)
    (required : List String) (sol : Option (List (String × String))) :
    Except String (List (String × String) × ℚ) :=
  match sol with
  | none => Except.error "AttributeError: NoneType object has no attribute get_values"
  | some edges =>
    match sort_list required edges with
    | none => Except.error "KeyError"
    | some p => Except.ok (p, e (objectiveValue w edges) - 1)

/-- The MIP-1 constraint system (`set_constraints`, lines 256-268, plus the
`'changeable'` constraint of lines 407-415) evaluated at an assignment
`x : Fin n → Fin n → ℤ`.  `L` is `path_length`, `req` the required row
indices, `hasCh` whether the `'changeable'` constraint is installed. -/
def pathConstraintsHold (n L : ℕ) (req : List (Fin n)) (hasCh : Bool)
    (x : Fin n → Fin n → ℤ) : Prop :=
  (∀ i j, x i j = 0 ∨ x i j = 1) ∧
  (∀ k, (∑ j, x k j) = ∑ j, x j k) ∧
  (∀ k, (∑ j, x k j) ≤ 1) ∧
  (∀ k, (∑ j, x j k) ≤ 1) ∧
  ((∑ i, ∑ j, x i j) ≤ (L : ℤ)) ∧
  (hasCh = true →
    (1 / 10 ^ 7 : ℚ) * (∑ i, ∑ j, (x i j : ℚ)) ≤ (req.map (fun i => ∑ j, (x i j : ℚ))).sum)

/-! ### Snapshot matrices (path_optimizer.py lines 155-187 and 287-326)

`update_transit_price` and `update_vol_matrix` fill `np.zeros([n, n])`
matrices by a sequence of element assignments; each is embedded as the list
of writes it performs in program order, read back with `applyWrites`. -/

/-- The largest finite IEEE-754 double, the exact value of
`np.nan_to_num(np.inf)` (line 316-317). -/
def floatMax : ℚ := 2 ^ 1024 - 2 ^ 971

/-- The inputs of `update_transit_price` / `update_vol_matrix`: the node set
and index table, the merged ticker dict `price` (keys are the `"from/to"`
pair names, embedded as `Node × Node`), the inter-exchange candidate list,
the withdrawal-fee and balance dicts, the reference-price dict
(`crypto_prices`, coin ↦ `price` field, which can be Python `None`), and the
`consider_inter_exc_bal` flag. -/
structure SnapCfg where
  currency_set : List Node
  currency2index : Node → ℕ
  price : List ((Node × Node) × Ticker)
  inter_convert_list : List (Node × Node)
  withdrawal_fee : List (Node × WFee)
  balance_dict : List (Node × ℚ)
  crypto_prices : List (String × Option ℚ)
  consider_inter_exc_bal : Bool

/-- The ticker-loop writes of `update_transit_price` for one `price` entry
(lines 166-173): when both nodes are in the node set and both `bid` and
`ask` are nonzero, write `bid` forward and `1/ask` backward. -/
def priceTransitWrite (c : SnapCfg) (kv : (Node × Node) × Ticker) : List (Cell × ℚ) :=
  if kv.1.1 ∈ c.currency_set ∧ kv.1.2 ∈ c.currency_set ∧
      kv.2.ask ≠ 0 ∧ kv.2.bid ≠ 0 then
    [((c.currency2index kv.1.1, c.currency2index kv.1.2), kv.2.bid),
     ((c.currency2index kv.1.2, c.currency2index kv.1.1), 1 / kv.2.ask)]
  else []

/-- The inter-exchange writes of `update_transit_price` for one candidate
pair (lines 175-187): both directions are always written, 1 where the
source node has a withdrawal fee and 0 where not. -/
def interTransitWrite (c : SnapCfg) (p : Node × Node) : List (Cell × ℚ) :=
  [((c.currency2index p.1, c.currency2index p.2),
    if (alookup c.withdrawal_fee p.1).isSome then 1 else 0),
   ((c.currency2index p.2, c.currency2index p.1),
    if (alookup c.withdrawal_fee p.2).isSome then 1 else 0)]

/-- The element assignments of `update_transit_price` (lines 166-187) in
program order: the ticker loop, then the inter-exchange loop. -/
def transitWrites (c : SnapCfg) : List (Cell × ℚ) :=
  c.price.flatMap (priceTransitWrite c)
  ++ c.inter_convert_list.flatMap (interTransitWrite c)

/-- `update_transit_price` (lines 155-187): the resulting
`transit_price_matrix`. -/
def update_transit_price (c : SnapCfg) : Cell → ℚ :=
  applyWrites (transitWrites c)

/-- Lines 298-302: the `usd_values` dict, keyed by pair, for price entries
whose base coin has a reference price that is not `None` and whose
`baseVolume` is not `None`; the value is
`baseVolume * price * percentile`. -/
def usdValues (c : SnapCfg) (percentile : ℚ) : List ((Node × Node) × ℚ) :=
  c.price.filterMap (fun kv =>
    match alookup c.crypto_prices kv.1.1.2, kv.2.baseVolume with
    | some (some pr), some bv => some (kv.1, bv * pr * percentile)
    | _, _ => none)

/-- The `usd_values`-loop writes of `update_vol_matrix` for one entry
(lines 304-308): both directions of each pair inside the node set get the
pair's USD notional. -/
def priceVolWrite (c : SnapCfg) (kv : (Node × Node) × ℚ) : List (Cell × ℚ) :=
  if kv.1.1 ∈ c.currency_set ∧ kv.1.2 ∈ c.currency_set then
    [((c.currency2index kv.1.1, c.currency2index kv.1.2), kv.2),
     ((c.currency2index kv.1.2, c.currency2index kv.1.1), kv.2)]
  else []

/-- The inter-exchange writes of `update_vol_matrix` for one candidate pair
(lines 310-326): each direction whose source node has a withdrawal fee is
overwritten with `receiver balance (or floatMax) + sender usd_fee`. -/
def interVolWrite (c : SnapCfg) (p : Node × Node) : List (Cell × ℚ) :=
  (match alookup c.withdrawal_fee p.1 with
   | some wf =>
     [((c.currency2index p.1, c.currency2index p.2),
       (if c.consider_inter_exc_bal then (alookup c.balance_dict p.2).getD 0
        else floatMax) + wf.usd_fee)]
   | none => []) ++
  (match alookup c.withdrawal_fee p.2 with
   | some wf =>
     [((c.currency2index p.2, c.currency2index p.1),
       (if c.consider_inter_exc_bal then (alookup c.balance_dict p.1).getD 0
        else floatMax) + wf.usd_fee)]
   | none => [])

/-- The element assignments of `update_vol_matrix` (lines 287-326) in program
order: the `usd_values` loop, then the inter-exchange loop. -/
def volWrites (c : SnapCfg) (percentile : ℚ) : List (Cell × ℚ) :=
  (usdValues c percentile).flatMap (priceVolWrite c)
  ++ c.inter_convert_list.flatMap (interVolWrite c)

/-- `update_vol_matrix` (lines 287-326, default `percentile=0.01`): the
resulting `vol_matrix`. -/
def update_vol_matrix (c : SnapCfg) (percentile : ℚ := 1 / 100) : Cell → ℚ :=
  applyWrites (volWrites c percentile)

/-! ### `AmtOptimizer._set_constraints` (amount_optimizer.py lines 81-128)

The MIP-2 constraint system, evaluated at an integer assignment
`x : Fin P → Fin K → ℤ` and a binary assignment `y`.  All data prepared by
`_update_path_params` is carried in `AmtModel`; `z i j` is the derived real
amount `x[i,j] * precision_matrix[i]` (line 79). -/

/-- The data of the amount model at `_set_constraints` time. -/
structure AmtModel where
  path_n : ℕ
  orderbook_n : ℕ
  path : Fin path_n → Node × Node
  reverse_list : Fin path_n → Bool
  path_commission : Fin path_n → ℚ
  precision_matrix : Fin path_n → ℚ
  amt_matrix : Fin path_n → Fin orderbook_n → ℚ
  price_matrix : Fin path_n → Fin orderbook_n → ℚ
  balance_vol : List ((Node × Node) × List (Node × ℚ))
  coin_fee : Node → ℚ
  big_m : ℚ
  trade_amt_ptc : ℚ

/-- `z = x * precision_matrix` (line 79). -/
def zAmt (m : AmtModel) (x : Fin m.path_n → Fin m.orderbook_n → ℤ)
    (i : Fin m.path_n) (j : Fin m.orderbook_n) : ℚ :=
  (x i j : ℚ) * m.precision_matrix i

/-- Whether leg `i` is an inter-exchange transfer
(`trade[0].split('_')[0] != trade[1].split('_')[0]`, line 111). -/
def interLeg (m : AmtModel) (i : Fin m.path_n) : Prop :=
  (m.path i).1.1 ≠ (m.path i).2.1

instance (m : AmtModel) (i : Fin m.path_n) : Decidable (interLeg m i) :=
  inferInstanceAs (Decidable (_ ≠ _))

/-- The running `prev_amt` after leg `i` (lines 119-126): what the next leg
may spend, in the next leg's input unit. -/
def prevAmt (m : AmtModel) (x : Fin m.path_n → Fin m.orderbook_n → ℤ)
    (i : Fin m.path_n) : ℚ :=
  if interLeg m i then (∑ j, zAmt m x i j) - m.coin_fee (m.path i).1
  else if m.reverse_list i = false then
    (∑ j, zAmt m x i j * m.price_matrix i j) * (1 - m.path_commission i)
  else (∑ j, zAmt m x i j) * (1 - m.path_commission i)

/-- `first_coin_bal = self.balance_vol[self.path[0]][self.path[0][0]]`
(line 96); `balance_constraint` always installs this entry, so the lookup is
read back with default 0. -/
def firstCoinBal (m : AmtModel) (i0 : Fin m.path_n) : ℚ :=
  ((alookup m.balance_vol (m.path i0)).bind (fun d => alookup d (m.path i0).1)).getD 0

/-- The full constraint system of `_set_constraints` (lines 81-128), plus the
binary nature of the `y` variables (line 77): constraints 1 (layer count),
2 (one layer per leg), the big-M linking, 3 (depth cap), 4 (initial balance),
5 (inter-exchange receiver cap), 6 (leg-to-leg coupling) and 7 (`x ≥ 0`). -/
def satisfiesAmtConstraints (m : AmtModel)
    (x y : Fin m.path_n → Fin m.orderbook_n → ℤ) : Prop :=
  (∀ i j, y i j = 0 ∨ y i j = 1) ∧
  ((∑ i, ∑ j, y i j) = (m.path_n : ℤ)) ∧
  (∀ i, (∑ j, y i j) ≤ 1) ∧
  (∀ i j, (x i j : ℚ) ≤ m.big_m * (y i j : ℚ)) ∧
  (∀ i j, zAmt m x i j ≤ m.trade_amt_ptc * m.amt_matrix i j) ∧
  (if h : 0 < m.path_n then
    let i0 : Fin m.path_n := ⟨0, h⟩
    if m.reverse_list i0 = false then (∑ j, zAmt m x i0 j) ≤ firstCoinBal m i0
    else (∑ j, zAmt m x i0 j * m.price_matrix i0 j) ≤ firstCoinBal m i0
   else True) ∧
  (∀ i, ∀ d ∈ alookup m.balance_vol (m.path i),
    ∀ b ∈ alookup d (m.path i).2,
      (∑ j, zAmt m x i j) ≤ b + m.coin_fee (m.path i).1) ∧
  (∀ i : Fin m.path_n, 1 ≤ i.val →
    if m.reverse_list i = false then
      (∑ j, zAmt m x i j)
        ≤ prevAmt m x ⟨i.val - 1, lt_of_le_of_lt (Nat.sub_le _ _) i.isLt⟩
    else
      (∑ j, zAmt m x i j * m.price_matrix i j)
        ≤ prevAmt m x ⟨i.val - 1, lt_of_le_of_lt (Nat.sub_le _ _) i.isLt⟩) ∧
  (∀ i j, 0 ≤ x i j)

instance (m : AmtModel) (x y : Fin m.path_n → Fin m.orderbook_n → ℤ) :
    Decidable (satisfiesAmtConstraints m x y) := by
  unfold satisfiesAmtConstraints
  infer_instance

/-! ### `AmtOptimizer._get_solution`, extraction part (amount_optimizer.py lines 159-171)

The solver values `xs` are reshaped, `zs = xs * precision_matrix`, the
nonzero cells are listed (numpy row-major order; the stable
`sorted(key=lambda x: x[0])` keeps that order) and folded into the
`trade_solution` OrderedDict.  `precision_matrix[i]` is `10 ** -d` by
`set_precision_matrix`, and line 166 recovers `d` as
`-int(np.log10(precision_matrix[i, 0]))`; the embedding carries the digit
count `digits i` directly. -/

/-- One emitted trade: `{'vol': …, 'price': …, 'direction': …}`. -/
structure TradeRec where
  vol : ℚ
  price : ℚ
  direction : String
  deriving DecidableEq, Repr

/-- The extraction inputs: the path, reverse flags, per-leg precision digit
counts (leg step = `10 ** -digits`), and the price matrix. -/
structure ExtractModel where
  path_n : ℕ
  orderbook_n : ℕ
  path : Fin path_n → Node × Node
  reverse_list : Fin path_n → Bool
  digits : Fin path_n → ℤ
  price_matrix : Fin path_n → Fin orderbook_n → ℚ

/-- Python `round(q)`: banker's rounding, nearest integer with ties to
even. -/
def pyRound (q : ℚ) : ℤ :=
  if q - (⌊q⌋ : ℚ) < 1 / 2 then ⌊q⌋
  else if 1 / 2 < q - (⌊q⌋ : ℚ) then ⌊q⌋ + 1
  else if Even ⌊q⌋ then ⌊q⌋ else ⌊q⌋ + 1

/-- `round(q, d)` for `d` decimal digits. -/
def roundToDigits (d : ℤ) (q : ℚ) : ℚ :=
  (pyRound (q * (10 : ℚ) ^ d) : ℚ) / (10 : ℚ) ^ d

/-- `zs = xs * precision_matrix` (line 160) with solver values `xs`. -/
def zsOf (m : ExtractModel) (xs : Fin m.path_n → Fin m.orderbook_n → ℚ)
    (i : Fin m.path_n) (j : Fin m.orderbook_n) : ℚ :=
  xs i j * (10 : ℚ) ^ (-(m.digits i))

/-- `nonzeroZ` (lines 161-162): the nonzero cells of `zs` in numpy row-major
order; `sorted(key=lambda x: x[0])` is stable, so the order is unchanged. -/
def nonzeroZ (m : ExtractModel) (xs : Fin m.path_n → Fin m.orderbook_n → ℚ) :
    List (Fin m.path_n × Fin m.orderbook_n) :=
  (List.finRange m.path_n).flatMap (fun i =>
    (List.finRange m.orderbook_n).filterMap (fun j =>
      if zsOf m xs i j ≠ 0 then some (i, j) else none))

/-- The OrderedDict key of leg `i`: the cycle-directed pair, reversed to
exchange orientation for reversed legs (line 169). -/
def tradeKey (m : ExtractModel) (i : Fin m.path_n) : Node × Node :=
  if m.reverse_list i = false then m.path i else ((m.path i).2, (m.path i).1)

/-- The emitted record of cell `(i, j)` (lines 166-171). -/
def tradeVal (m : ExtractModel) (xs : Fin m.path_n → Fin m.orderbook_n → ℚ)
    (i : Fin m.path_n) (j : Fin m.orderbook_n) : TradeRec :=
  { vol := roundToDigits (m.digits i) (zsOf m xs i j),
    price := m.price_matrix i j,
    direction := if m.reverse_list i = false then "bid_sell" else "ask_buy" }

/-- The `for i, j in nonzeroZ` loop (lines 164-171): fold the emitted records
into the `trade_solution` OrderedDict (`dictSet`: existing keys are updated
in place, new keys are appended). -/
def getSolutionExtract (m : ExtractModel)
    (xs : Fin m.path_n → Fin m.orderbook_n → ℚ) : List ((Node × Node) × TradeRec) :=
  (nonzeroZ m xs).foldl
    (fun d ij => dictSet d (tradeKey m ij.1) (tradeVal m xs ij.1 ij.2)) []

/-! ### `AmtOptimizer.get_precision` / `set_precision_matrix` (amount_optimizer.py lines 198-234)

`get_precision` fills `self.precision`: for every listed market, the
reported `precision['amount']` with fallback `self.default_precision`; then,
for inter-exchange candidate pairs, 5 in both directions.  A stored value is
`Option ℤ` because the fallback itself can be Python `None`: `__init__` calls
`get_precision()` (line 42) *before* `self.default_precision = 3` (line 47),
so at the only call site the fallback is the class-level `None` (line 36).
`set_precision_matrix` then computes `10 ** -self.precision[trade_pair]`,
which raises `TypeError` on a stored `None`. -/

/-- `itertools.combinations(l, 2)` in its order. -/
def combos {α : Type} : List α → List (α × α)
  | [] => []
  | x :: xs => xs.map (fun y => (x, y)) ++ combos xs

/-- `same_currency_maps` (lines 211-217, identical to lines 332-338): group
the node set by coin short name, keeping insertion order. -/
def groupByCoin (cs : List Node) : List (String × List Node) :=
  cs.foldl
    (fun acc n =>
      if (alookup acc n.2).isSome then
        acc.map (fun kv => if kv.1 = n.2 then (kv.1, kv.2 ++ [n]) else kv)
      else acc ++ [(n.2, [n])])
    []

/-- Lines 219-223 / 340-343: all unordered inter-exchange candidate pairs,
`itertools.combinations` over each coin group of size ≥ 2. -/
def interPairs (cs : List Node) : List (Node × Node) :=
  (groupByCoin cs).flatMap (fun kv => if 2 ≤ kv.2.length then combos kv.2 else [])

/-- The dict assignments of `get_precision` (lines 198-223) in program order.
`exchangesMarkets` maps each exchange to its markets, a market being
`(base, quote)` with its optional `precision['amount']`. -/
def precisionWrites (exchangesMarkets : List (String × List ((String × String) × Option ℤ)))
    (currency_set : List Node) (inter_exchange_trading : Bool)
    (default_precision : Option ℤ) : List ((Node × Node) × Option ℤ) :=
  (exchangesMarkets.flatMap (fun em =>
    em.2.map (fun pr =>
      (((em.1, pr.1.1), (em.1, pr.1.2)),
       match pr.2 with
       | some d => some d
       | none => default_precision))))
  ++ (if inter_exchange_trading then
        (interPairs currency_set).flatMap (fun p =>
          [((p.1, p.2), some 5), ((p.2, p.1), some 5)])
      else [])

/-- `self.precision[key]` after `get_precision`: outer `none` is a missing
key (`KeyError` on use), `some none` is a stored Python `None`. -/
def getPrecision (exchangesMarkets : List (String × List ((String × String) × Option ℤ)))
    (currency_set : List Node) (inter_exchange_trading : Bool)
    (default_precision : Option ℤ) : (Node × Node) → Option (Option ℤ) :=
  lastAssoc (precisionWrites exchangesMarkets currency_set inter_exchange_trading
    default_precision)

/-- `set_precision_matrix` (lines 225-234): for each leg, look up the pair in
exchange orientation and take `10 ** -d`; a missing key raises `KeyError`
and a stored `None` raises `TypeError` (`unary -` on `NoneType`). -/
def setPrecisionMatrix (prec : (Node × Node) → Option (Option ℤ))
    (pathRev : List ((Node × Node) × Bool)) : Except String (List ℚ) :=
  pathRev.mapM (fun pr =>
    let tp := if pr.2 = false then pr.1 else (pr.1.2, pr.1.1)
    match prec tp with
    | none => Except.error "KeyError"
    | some none => Except.error "TypeError: bad operand type for unary -: NoneType"
    | some (some d) => Except.ok ((10 : ℚ) ^ (-d)))

/-! ### `multiThread` and its consumers (utils.py lines 79-114,
path_optimizer.py lines 155-173 and 202-229)

`eachThread` wraps every item's `func` call in `try/except`, appending
`(index, result)` on success and `(index, None)` on failure; `multiThread`
joins all threads, sorts by index and strips the indices.  The denotation:
slot `i` of the output is `func(List[i])`, with an exception mapped to
`None` — one item's failure cannot disturb another's slot.  The consumers
then iterate the slots: `update_transit_price` does
`self.price.update(exc_price)` (a `None` slot raises `TypeError`), and
`update_balance` iterates `exc_bal.keys()` (a `None` slot raises
`AttributeError`). -/

/-- Denotation of `multiThread func List threadNum` (utils.py lines 93-114):
`func` returning `none` models a call that raised (caught by `eachThread`,
line 88-90). -/
def multiThreadModel {α β : Type} (func : α → Option β) (l : List α) : List (Option β) :=
  l.map func

/-- Python `d.update(e)` for dicts as association lists. -/
def pyDictUpdate [DecidableEq κ] (d e : List (κ × ν)) : List (κ × ν) :=
  e.foldl (fun acc kv => dictSet acc kv.1 kv.2) d

/-- The `for exc_price in exc_price_list: self.price.update(exc_price)` loop
of `update_transit_price` (lines 163-164) over the `multiThread` results:
`dict.update(None)` raises `TypeError`. -/
def updatePriceAggregate (results : List (Option (List ((Node × Node) × Ticker)))) :
    Except String (List ((Node × Node) × Ticker)) :=
  results.foldlM
    (fun acc r =>
      match r with
      | none => Except.error "TypeError: NoneType object is not iterable"
      | some d => Except.ok (pyDictUpdate acc d))
    []

/-- Lines 216-229 of `update_balance`, one exchange: convert the fetched free
balances of coins in `coin_set` to `{balance, usd_balance}` records keyed by
node. -/
def processExcBal (exc : String) (coin_set : List String)
    (crypto_price : String → ℚ) (bal : List (String × ℚ)) :
    List (Node × (ℚ × ℚ)) :=
  bal.filterMap (fun cb =>
    if cb.1 ∈ coin_set then some ((exc, cb.1), (cb.2, cb.2 * crypto_price cb.1))
    else none)

/-- The per-exchange loop of `update_balance` (lines 216-229) over the
`multiThread` results: `exc_bal` being `None` raises `AttributeError` on
`exc_bal.keys()`. -/
def updateBalanceAggregate (excs : List String) (coin_set : List String)
    (crypto_price : String → ℚ) (results : List (Option (List (String × ℚ)))) :
    Except String (List (Node × (ℚ × ℚ))) :=
  (excs.zip results).foldlM
    (fun acc er =>
      match er.2 with
      | none => Except.error "AttributeError: NoneType object has no attribute keys"
      | some bal => Except.ok (acc ++ processExcBal er.1 coin_set crypto_price bal))
    []

/-- A one-leg, one-layer concrete instance of `AmtModel`, used to evaluate
the MIP-2 constraint system on explicit numbers. -/
def amtModelExample : AmtModel where
  path_n := 1
  orderbook_n := 1
  path := fun _ => (("e", "BTC"), ("e", "USDT"))
  reverse_list := fun _ => false
  path_commission := fun _ => 1 / 1000
  precision_matrix := fun _ => 1 / 1000
  amt_matrix := fun _ _ => 5
  price_matrix := fun _ _ => 2
  balance_vol := [((("e", "BTC"), ("e", "USDT")), [(("e", "BTC"), 10)])]
  coin_fee := fun _ => 0
  big_m := 10 ^ 10
  trade_amt_ptc := 1

/-- A two-exchange concrete instance of `SnapCfg`: one BTC node per
exchange, one listed pair on `e1`, a withdrawal fee on `e1`'s BTC and a
balance on `e2`'s BTC. -/
def snapCfgExample : SnapCfg where
  currency_set := [("e1", "BTC"), ("e1", "USDT"), ("e2", "BTC")]
  currency2index := fun n =>
    if n = ("e1", "BTC") then 0 else if n = ("e1", "USDT") then 1 else 2
  price := [((("e1", "BTC"), ("e1", "USDT")), ⟨20000, 20010, some 3⟩)]
  inter_convert_list := [(("e1", "BTC"), ("e2", "BTC"))]
  withdrawal_fee := [(("e1", "BTC"), ⟨2, 1 / 1000, 1 / 10000⟩)]
  balance_dict := [(("e2", "BTC"), 500)]
  crypto_prices := [("BTC", some 20000)]
  consider_inter_exc_bal := true

/-- A one-leg concrete instance of `ExtractModel`. -/
def extractModelExample : ExtractModel where
  path_n := 1
  orderbook_n := 1
  path := fun _ => (("e1", "BTC"), ("e1", "USDT"))
  reverse_list := fun _ => false
  digits := fun _ => 2
  price_matrix := fun _ _ => 7

/-- The two-leg intra-exchange cycle `A→B→A` with the second leg reversed:
leg 0 trades the pair `A/B` as listed and leg 1 trades the same listed pair
`A/B` from the other side, so both legs produce the same exchange-oriented
trade key. -/
def extractModelCollision : ExtractModel where
  path_n := 2
  orderbook_n := 1
  path := fun i =>
    if i.val = 0 then (("e1", "A"), ("e1", "B")) else (("e1", "B"), ("e1", "A"))
  reverse_list := fun i => if i.val = 0 then false else true
  digits := fun _ => 2
  price_matrix := fun _ _ => 7

/-! ## Helper lemmas -/

theorem alookup_append {κ ν : Type} [DecidableEq κ] (d e : List (κ × ν)) (k : κ) :
    alookup (d ++ e) k =
      match alookup d k with
      | some v => some v
      | none => alookup e k := by
  induction d with
  | nil => simp [alookup]
  | cons kv rest ih => by_cases h : kv.1 = k <;> simp [alookup, h, ih]

theorem alookup_eq_none {κ ν : Type} [DecidableEq κ] (d : List (κ × ν)) (k : κ)
    (h : ∀ kv ∈ d, kv.1 ≠ k) : alookup d k = none := by
  induction d with
  | nil => rfl
  | cons kv rest ih =>
    have h1 := h kv (List.mem_cons_self _ _)
    simp only [alookup, if_neg h1]
    exact ih (fun kv hm => h kv (List.mem_cons_of_mem _ hm))

theorem alookup_dictSet_self {κ ν : Type} [DecidableEq κ] (d : List (κ × ν))
    (k : κ) (v : ν) : alookup (dictSet d k v) k = some v := by
  induction d with
  | nil => simp [dictSet, alookup]
  | cons kv rest ih =>
    by_cases h : kv.1 = k
    · simp [dictSet, alookup, h]
    · simp [dictSet, alookup, h, ih]

theorem alookup_dictSet_ne {κ ν : Type} [DecidableEq κ] (d : List (κ × ν))
    (k' : κ) (v : ν) (k : κ) (h : k' ≠ k) :
    alookup (dictSet d k' v) k = alookup d k := by
  induction d with
  | nil => simp [dictSet, alookup, h]
  | cons kv rest ih =>
    by_cases h1 : kv.1 = k'
    · simp only [dictSet, if_pos h1, alookup, if_neg h]
      rw [if_neg (h1 ▸ h : kv.1 ≠ k)]
    · simp only [dictSet, if_neg h1, alookup]
      by_cases h2 : kv.1 = k
      · simp [h2]
      · simp [h2, ih]

theorem lastAssoc_step {κ ν : Type} [DecidableEq κ] (ws : List (κ × ν)) (k : κ)
    (init : Option ν) :
    ws.foldl (fun acc w => if w.1 = k then some w.2 else acc) init
      = match lastAssoc ws k with
        | some v => some v
        | none => init := by
  induction ws generalizing init with
  | nil => simp [lastAssoc]
  | cons w ws ih =>
    have h1 : (w :: ws).foldl (fun acc w => if w.1 = k then some w.2 else acc) init
        = ws.foldl (fun acc w => if w.1 = k then some w.2 else acc)
            (if w.1 = k then some w.2 else init) := by
      simp
    have h2 : lastAssoc (w :: ws) k
        = ws.foldl (fun acc w => if w.1 = k then some w.2 else acc)
            (if w.1 = k then some w.2 else none) := by
      simp [lastAssoc]
    rw [h1, ih, h2, ih]
    cases lastAssoc ws k with
    | some v => rfl
    | none => by_cases h : w.1 = k <;> simp [h]

theorem lastAssoc_append {κ ν : Type} [DecidableEq κ] (ws1 ws2 : List (κ × ν)) (k : κ) :
    lastAssoc (ws1 ++ ws2) k =
      match lastAssoc ws2 k with
      | some v => some v
      | none => lastAssoc ws1 k := by
  have h : lastAssoc (ws1 ++ ws2) k
      = ws2.foldl (fun acc w => if w.1 = k then some w.2 else acc) (lastAssoc ws1 k) := by
    simp [lastAssoc, List.foldl_append]
  rw [h, lastAssoc_step]

theorem lastAssoc_eq_none {κ ν : Type} [DecidableEq κ] (ws : List (κ × ν)) (k : κ)
    (h : ∀ w ∈ ws, w.1 ≠ k) : lastAssoc ws k = none := by
  induction ws with
  | nil => rfl
  | cons w rest ih =>
    have h1 := h w (List.mem_cons_self _ _)
    have : lastAssoc (w :: rest) k = lastAssoc ([w] ++ [] ++ rest) k := by simp
    rw [this]
    rw [lastAssoc_append]
    rw [ih (fun w hm => h w (List.mem_cons_of_mem _ hm))]
    simp [lastAssoc, h1]

/-! ## Claim C9 -/

theorem set_params_isOk_iff {α : Type} (st : List (String × α))
    (params : List (String × α)) :
    (set_params st params).isOk = true ↔ ∀ kv ∈ params, kv.1 ∈ pathOptimizerAttrs := by
  induction params generalizing st with
  | nil =>
    constructor
    · intro _ kv hkv
      exact absurd hkv (List.not_mem_nil kv)
    · intro _
      rfl
  | cons kv rest ih =>
    by_cases h : kv.1 ∈ pathOptimizerAttrs
    · have hstep : set_params st (kv :: rest)
          = set_params (dictSet st kv.1 kv.2) rest := by
        simp only [set_params, List.foldlM_cons, if_pos h]
        rfl
      rw [hstep]
      simp only [List.mem_cons, forall_eq_or_imp, h, true_and]
      exact ih _
    · have hstep : set_params st (kv :: rest)
          = Except.error (kv.1 ++ " is not a valid attribute in model") := by
        simp only [set_params, List.foldlM_cons, if_neg h]
        rfl
      rw [hstep]
      constructor
      · intro hok
        exact absurd hok (by simp [Except.isOk, Except.toBool])
      · intro hall
        exact absurd (hall kv (List.mem_cons_self kv rest)) h

/-- Claim C9: `set_params` raises `ValueError` exactly when some supplied
parameter name is not an existing attribute of the model object; because the
check is attribute existence (`hasattr`) rather than membership in the
enumerated configuration fields, an existing method name such as
`find_arbitrage` is silently accepted and overwritten with the supplied
value. -/
theorem set_params_hasattr_check {α : Type} (st : List (String × α))
    (params : List (String × α)) :
    ((set_params st params).isOk = true ↔ ∀ kv ∈ params, kv.1 ∈ pathOptimizerAttrs) ∧
    "find_arbitrage" ∈ pathOptimizerAttrs ∧
    ∀ v : α,
      set_params st [("find_arbitrage", v)]
          = Except.ok (dictSet st "find_arbitrage" v) ∧
      alookup (dictSet st "find_arbitrage" v) "find_arbitrage" = some v := by
  refine ⟨set_params_isOk_iff st params, by decide, fun v => ⟨?_, ?_⟩⟩
  · simp only [set_params, List.foldlM_cons,
      if_pos (show "find_arbitrage" ∈ pathOptimizerAttrs by decide)]
    rfl
  · exact alookup_dictSet_self st "find_arbitrage" v

/-! ## Claim C1 -/

theorem update_changeable_fields (s : ChState) :
    (update_changeable_constraint s).consider_init_bal = s.consider_init_bal ∧
    (update_changeable_constraint s).min_trading_limit = s.min_trading_limit ∧
    (update_changeable_constraint s).currency2index = s.currency2index := by
  unfold update_changeable_constraint
  split
  · dsimp only
    split
    · exact ⟨rfl, rfl, rfl⟩
    · split <;> exact ⟨rfl, rfl, rfl⟩
  · exact ⟨rfl, rfl, rfl⟩

theorem update_changeable_spec (s : ChState) (h : s.consider_init_bal = true) :
    (update_changeable_constraint s).required_currencies
        = fundedList s.min_trading_limit s.balance_dict ∧
    (update_changeable_constraint s).changeable
      = if fundedList s.min_trading_limit s.balance_dict = []
          ∨ fundedList s.min_trading_limit s.balance_dict = s.required_currencies
        then s.changeable
        else some ((fundedList s.min_trading_limit s.balance_dict).map s.currency2index) := by
  unfold update_changeable_constraint
  rw [h]
  simp only [if_true]
  by_cases h1 : fundedList s.min_trading_limit s.balance_dict = []
  · simp [h1]
  · by_cases h2 : fundedList s.min_trading_limit s.balance_dict = s.required_currencies
    · simp [h1, h2]
    · simp [h1, h2]

theorem update_changeable_skip (s : ChState) (h : s.consider_init_bal = false) :
    update_changeable_constraint s = s := by
  simp [update_changeable_constraint, h]

theorem runCh_not_considered (bs : List (List (String × ℚ))) :
    ∀ s : ChState, s.consider_init_bal = false →
    (runChUpdates s bs).changeable = s.changeable := by
  induction bs with
  | nil => intro s _; rfl
  | cons b rest ih =>
    intro s h
    show (runChUpdates (update_changeable_constraint { s with balance_dict := b }) rest).changeable = _
    rw [update_changeable_skip { s with balance_dict := b } h]
    exact ih _ h

theorem runCh_aux (bs : List (List (String × ℚ))) :
    ∀ s : ChState, s.consider_init_bal = true →
    (s.required_currencies ≠ [] →
      s.changeable = some (s.required_currencies.map s.currency2index)) →
    (runChUpdates s bs).changeable
      = match lastNonemptyFunded s.min_trading_limit bs with
        | some r => some (r.map s.currency2index)
        | none => s.changeable := by
  induction bs with
  | nil =>
    intro s _ _
    rfl
  | cons b rest ih =>
    intro s h hinv
    set sb : ChState := { s with balance_dict := b } with hsb
    have hsbc : sb.consider_init_bal = true := h
    set s1 := update_changeable_constraint sb with hs1
    obtain ⟨hreq, hch⟩ := update_changeable_spec sb hsbc
    obtain ⟨hf1, hf2, hf3⟩ := update_changeable_fields sb
    have hstep : runChUpdates s (b :: rest) = runChUpdates s1 rest := rfl
    have hbd : fundedList sb.min_trading_limit sb.balance_dict
        = fundedList s.min_trading_limit b := rfl
    have hinv1 : s1.required_currencies ≠ [] →
        s1.changeable = some (s1.required_currencies.map s1.currency2index) := by
      intro hne
      rw [hreq, hbd] at hne ⊢
      rw [hch, hbd, hf3]
      by_cases h1 : fundedList s.min_trading_limit b = []
      · exact absurd h1 hne
      · by_cases h2 : fundedList s.min_trading_limit b = s.required_currencies
        · rw [if_pos (Or.inr (by rw [hbd] at h2 ⊢; exact h2))]
          rw [h2]
          exact hinv (h2 ▸ hne)
        · rw [if_neg (by rw [hbd]; exact fun hc => hc.elim h1 h2)]
    have hmain := ih s1 (hf1.trans h) hinv1
    rw [hstep, hmain, hf2, hf3]
    show (match lastNonemptyFunded s.min_trading_limit rest with
      | some r => some (r.map s.currency2index)
      | none => s1.changeable)
      = _
    cases hrest : lastNonemptyFunded s.min_trading_limit rest with
    | some r =>
      show some (r.map s.currency2index)
        = match lastNonemptyFunded s.min_trading_limit (b :: rest) with
          | some r => some (r.map s.currency2index)
          | none => s.changeable
      simp [lastNonemptyFunded, hrest]
    | none =>
      show s1.changeable
        = match lastNonemptyFunded s.min_trading_limit (b :: rest) with
          | some r => some (r.map s.currency2index)
          | none => s.changeable
      rw [hch, hbd]
      by_cases h1 : fundedList s.min_trading_limit b = []
      · simp [lastNonemptyFunded, hrest, h1]
      · by_cases h2 : fundedList s.min_trading_limit b = s.required_currencies
        · rw [if_pos (Or.inr h2)]
          simp only [lastNonemptyFunded, hrest, if_neg h1]
          rw [h2]
          exact hinv (h2 ▸ h1)
        · rw [if_neg (fun hc => hc.elim h1 h2)]
          simp [lastNonemptyFunded, hrest, h1]

/-- Claim C1 counterexample: with `consider_init_bal = true`, a call whose
funded set is `{binance_BTC}` installs the `'changeable'` constraint; the
next call, whose funded set is empty, leaves the constraint in the model
(lines 402-403 just `pass`), so after that call the constraint is present
although the set of funded nodes is empty — refuting the claimed
"if and only if". -/
theorem changeable_constraint_stale_counterexample :
    (update_changeable_constraint
      { update_changeable_constraint
          ⟨true, 10, fun _ => 0, [("binance_BTC", 100)], [], none⟩
        with balance_dict := [] }).changeable = some [0] ∧
    fundedList 10 ([] : List (String × ℚ)) = [] := by
  exact ⟨rfl, rfl⟩

/-- Claim C1 (amended): starting from the default state (no required
currencies, no `'changeable'` constraint), with `consider_init_bal = true`
the constraint after a sequence of `find_arbitrage` calls with balance
snapshots `bs` reflects the funded set of the *last call whose funded set
was nonempty* — in particular it is installed and replaced as that set
changes, but a previously installed constraint is left in place (stale)
when the funded set becomes empty; with `consider_init_bal = false` the
constraint is never added. -/
theorem changeable_constraint_tracks_funded (idx : String → ℕ) (min_limit : ℚ)
    (bs : List (List (String × ℚ))) :
    (runChUpdates ⟨true, min_limit, idx, [], [], none⟩ bs).changeable
        = (lastNonemptyFunded min_limit bs).map (fun r => r.map idx) ∧
    (runChUpdates ⟨false, min_limit, idx, [], [], none⟩ bs).changeable = none := by
  constructor
  · have h := runCh_aux bs ⟨true, min_limit, idx, [], [], none⟩ rfl
      (fun hc => absurd rfl hc)
    rw [h]
    cases lastNonemptyFunded min_limit bs <;> rfl
  · exact runCh_not_considered bs _ rfl

/-! ## Claim C10 -/

theorem foldl_dictSet_lookup {α : Type} [DecidableEq α] (l : List (α × α)) :
    ∀ (acc : List (α × (α × α))) (k : α) (e : α × α),
    alookup (l.foldl (fun a e => dictSet a e.1 e) acc) k = some e →
    alookup acc k = some e ∨ (e ∈ l ∧ e.1 = k) := by
  induction l with
  | nil =>
    intro acc k e h
    exact Or.inl h
  | cons x rest ih =>
    intro acc k e h
    rcases ih (dictSet acc x.1 x) k e h with h3 | h3
    · by_cases hx : x.1 = k
      · subst hx
        rw [alookup_dictSet_self] at h3
        refine Or.inr ⟨?_, ?_⟩
        · rw [← Option.some_inj.mp h3]
          exact List.mem_cons_self x rest
        · rw [← Option.some_inj.mp h3]
      · rw [alookup_dictSet_ne acc x.1 x k hx] at h3
        exact Or.inl h3
    · exact Or.inr ⟨List.mem_cons_of_mem x h3.1, h3.2⟩

theorem firstNum_lookup {α : Type} [DecidableEq α] (edges : List (α × α)) (k : α)
    (e : α × α) (h : alookup (firstNum edges) k = some e) : e ∈ edges ∧ e.1 = k := by
  rcases foldl_dictSet_lookup edges [] k e h with h2 | h2
  · exact absurd h2 (by simp [alookup])
  · exact h2

theorem foldl_dictSet_isSome {α : Type} [DecidableEq α] (l : List (α × α)) :
    ∀ (acc : List (α × (α × α))) (k : α),
    (alookup (l.foldl (fun a e => dictSet a e.1 e) acc) k).isSome
      ↔ ((alookup acc k).isSome ∨ k ∈ l.map Prod.fst) := by
  induction l with
  | nil => simp
  | cons x rest ih =>
    intro acc k
    rw [List.foldl_cons, ih]
    by_cases hx : x.1 = k
    · subst hx
      simp [alookup_dictSet_self]
    · rw [alookup_dictSet_ne acc x.1 x k hx]
      simp only [List.map_cons, List.mem_cons]
      constructor
      · rintro (h | h)
        · exact Or.inl h
        · exact Or.inr (Or.inr h)
      · rintro (h | h | h)
        · exact Or.inl h
        · exact absurd h.symm hx
        · exact Or.inr h

theorem firstNum_isSome {α : Type} [DecidableEq α] (edges : List (α × α)) (k : α) :
    (alookup (firstNum edges) k).isSome ↔ k ∈ edges.map Prod.fst := by
  rw [firstNum, foldl_dictSet_isSome]
  simp [alookup]

theorem find?_pred_true {α : Type} (l : List α) (p : α → Bool) (a : α)
    (h : l.find? p = some a) : p a = true :=
  List.find?_some h

theorem find?_congr_pred {α : Type} (l : List α) (p q : α → Bool)
    (h : ∀ a, p a = q a) : l.find? p = l.find? q := by
  induction l with
  | nil => rfl
  | cons x rest ih =>
    rw [List.find?_cons, List.find?_cons, h x]
    cases q x <;> simp [ih]

theorem sortListLoop_success {α : Type} [DecidableEq α] (edges : List (α × α))
    (hclosed : ∀ e ∈ edges, e.2 ∈ edges.map Prod.fst) :
    ∀ (fuel : ℕ) (item : α × α) (output : List (α × α)),
    output ≠ [] →
    output.Nodup →
    (∀ e ∈ output, e ∈ edges) →
    List.Chain' (fun a b => a.2 = b.1) output →
    output.getLast? = some item →
    edges.length + 1 ≤ fuel + output.length →
    ∃ out, sortListLoop (firstNum edges) fuel item output = some out ∧
      out ≠ [] ∧ out.Nodup ∧ (∀ e ∈ out, e ∈ edges) ∧
      List.Chain' (fun a b => a.2 = b.1) out ∧ out.head? = output.head? := by
  intro fuel
  induction fuel with
  | zero =>
    intro item output _ hnd hsub _ _ hfuel
    exfalso
    have hle : output.length ≤ edges.length :=
      ((hnd.subperm (fun e he => hsub e he))).length_le
    omega
  | succ fuel ih =>
    intro item output hne hnd hsub hch hlast hfuel
    have hitem : item ∈ output := by
      have := List.getLast?_eq_getLast output hne
      rw [this] at hlast
      rw [← Option.some_inj.mp hlast]
      exact List.getLast_mem hne
    have hitemE : item ∈ edges := hsub item hitem
    have hkey : (alookup (firstNum edges) item.2).isSome :=
      (firstNum_isSome edges item.2).mpr (hclosed item hitemE)
    obtain ⟨next, hnext⟩ := Option.isSome_iff_exists.mp hkey
    obtain ⟨hnextE, hnextFst⟩ := firstNum_lookup edges item.2 next hnext
    have hunfold : sortListLoop (firstNum edges) (fuel + 1) item output
        = if next ∈ output then some output
          else sortListLoop (firstNum edges) fuel next (output ++ [next]) := by
      rw [sortListLoop, hnext]
    rw [hunfold]
    by_cases hmem : next ∈ output
    · rw [if_pos hmem]
      exact ⟨output, rfl, hne, hnd, hsub, hch, rfl⟩
    · rw [if_neg hmem]
      have hnd' : (output ++ [next]).Nodup := by
        rw [List.nodup_append]
        exact ⟨hnd, List.nodup_singleton next,
          fun a ha hb => hmem (by
            rw [List.mem_singleton] at hb
            exact hb ▸ ha)⟩
      have hsub' : ∀ e ∈ output ++ [next], e ∈ edges := by
        intro e he
        rcases List.mem_append.mp he with h | h
        · exact hsub e h
        · rw [List.mem_singleton] at h
          exact h ▸ hnextE
      have hch' : List.Chain' (fun a b => a.2 = b.1) (output ++ [next]) := by
        apply hch.append (List.chain'_singleton next)
        intro x hx y hy
        rw [hlast] at hx
        rw [Option.mem_some_iff] at hx
        simp only [List.head?_cons, Option.mem_some_iff] at hy
        rw [← hx, ← hy]
        exact hnextFst.symm
      have hlast' : (output ++ [next]).getLast? = some next := by
        rw [List.getLast?_concat]
      have hfuel' : edges.length + 1 ≤ fuel + (output ++ [next]).length := by
        rw [List.length_append, List.length_singleton]
        omega
      obtain ⟨out, hout, p1, p2, p3, p4, p5⟩ :=
        ih next (output ++ [next]) (by simp) hnd' hsub' hch' hlast' hfuel'
      refine ⟨out, hout, p1, p2, p3, p4, ?_⟩
      rw [p5]
      cases output with
      | nil => exact absurd rfl hne
      | cons a l => rfl

/-- Claim C10 counterexample: the single-edge list `[("A", "B")]` has every
from-node in at most one edge, yet `_sort_list` does not return a chain: the
loop looks up `first_num["B"]`, which raises `KeyError` (embedded as
`none`). -/
theorem sort_list_keyerror_counterexample :
    sort_list ([] : List String) [("A", "B")] = none := rfl

/-- Claim C10 (amended): for every non-empty edge list in which each
from-node appears in at most one edge *and every to-node appears as some
from-node*, `_sort_list` terminates and returns a nonempty duplicate-free
head-to-tail connected chain of input edges, starting at the edge whose
from-node is the first required currency that matches (or at the list's
first edge when none matches) and stopping at the first revisited edge; on
an input that is a union of disjoint cycles, the edges outside the seed's
cycle are dropped (the output is only a subset of the input, e.g.
`[("A","B"), ("B","A"), ("C","D"), ("D","C")]` returns just the first
cycle).  Without the added closedness hypothesis the loop raises `KeyError`
(see the counterexample). -/
theorem sort_list_total (required : List String) (edges : List (String × String))
    (hne : edges ≠ [])
    (hnodup : (edges.map Prod.fst).Nodup)
    (hclosed : ∀ e ∈ edges, e.2 ∈ edges.map Prod.fst) :
    (∃ out, sort_list required edges = some out ∧ out ≠ [] ∧ out.Nodup ∧
      (∀ e ∈ out, e ∈ edges) ∧ List.Chain' (fun a b => a.2 = b.1) out ∧
      (∀ c, required.find? (fun s => decide (s ∈ edges.map Prod.fst)) = some c →
        ∃ e, out.head? = some e ∧ e ∈ edges ∧ e.1 = c) ∧
      (required.find? (fun s => decide (s ∈ edges.map Prod.fst)) = none →
        out.head? = edges.head?)) ∧
    sort_list ([] : List String) [("A","B"), ("B","A"), ("C","D"), ("D","C")]
      = some [("A","B"), ("B","A")] := by
  constructor
  · obtain ⟨e0, rest, rfl⟩ : ∃ e0 rest, edges = e0 :: rest := by
      cases edges with
      | nil => exact absurd rfl hne
      | cons a l => exact ⟨a, l, rfl⟩
    clear hne hnodup
    have hpred : ∀ s : String,
        ((alookup (firstNum (e0 :: rest)) s).isSome : Bool)
          = decide (s ∈ (e0 :: rest).map Prod.fst) := by
      intro s
      by_cases hmem : s ∈ (e0 :: rest).map Prod.fst
      · rw [(firstNum_isSome (e0 :: rest) s).mpr hmem]
        exact (decide_eq_true hmem).symm
      · have hnone : (alookup (firstNum (e0 :: rest)) s).isSome = false := by
          rcases Bool.eq_false_or_eq_true ((alookup (firstNum (e0 :: rest)) s).isSome)
            with h | h
          · exact absurd ((firstNum_isSome (e0 :: rest) s).mp h) hmem
          · exact h
        rw [hnone]
        exact (decide_eq_false hmem).symm
    have hfind : required.find? (fun s => (alookup (firstNum (e0 :: rest)) s).isSome)
        = required.find? (fun s => decide (s ∈ (e0 :: rest).map Prod.fst)) :=
      find?_congr_pred required _ _ hpred
    cases hf : required.find? (fun s => decide (s ∈ (e0 :: rest).map Prod.fst)) with
    | none =>
      have hf0 : required.find? (fun s => (alookup (firstNum (e0 :: rest)) s).isSome)
          = none := by rw [hfind, hf]
      have hloopEq : sort_list required (e0 :: rest)
          = sortListLoop (firstNum (e0 :: rest)) ((e0 :: rest).length + 1) e0 [e0] := by
        simp only [sort_list, hf0]
      obtain ⟨out, hout, p1, p2, p3, p4, p5⟩ :=
        sortListLoop_success (e0 :: rest) hclosed ((e0 :: rest).length + 1) e0 [e0]
          (by simp) (List.nodup_singleton e0)
          (by
            intro e he
            rw [List.mem_singleton] at he
            exact he ▸ List.mem_cons_self e0 rest)
          (List.chain'_singleton e0) rfl (by simp)
      refine ⟨out, hloopEq ▸ hout, p1, p2, p3, p4, ?_, ?_⟩
      · intro c hc
        exact absurd hc (by simp)
      · intro _
        rw [p5]
        rfl
    | some c =>
      have hf0 : required.find? (fun s => (alookup (firstNum (e0 :: rest)) s).isSome)
          = some c := by rw [hfind, hf]
      have hcmem : c ∈ (e0 :: rest).map Prod.fst :=
        of_decide_eq_true (by exact find?_pred_true required _ c hf)
      have hks : (alookup (firstNum (e0 :: rest)) c).isSome :=
        (firstNum_isSome (e0 :: rest) c).mpr hcmem
      obtain ⟨e, he⟩ := Option.isSome_iff_exists.mp hks
      obtain ⟨heE, heFst⟩ := firstNum_lookup (e0 :: rest) c e he
      have hloopEq : sort_list required (e0 :: rest)
          = sortListLoop (firstNum (e0 :: rest)) ((e0 :: rest).length + 1) e [e] := by
        simp only [sort_list, hf0, he, Option.getD_some]
      obtain ⟨out, hout, p1, p2, p3, p4, p5⟩ :=
        sortListLoop_success (e0 :: rest) hclosed ((e0 :: rest).length + 1) e [e]
          (by simp) (List.nodup_singleton e)
          (by
            intro x hx
            rw [List.mem_singleton] at hx
            exact hx ▸ heE)
          (List.chain'_singleton e) rfl (by simp)
      refine ⟨out, hloopEq ▸ hout, p1, p2, p3, p4, ?_, ?_⟩
      · intro c' hc'
        have hcc : c = c' := Option.some_inj.mp hc'
        exact ⟨e, by rw [p5]; rfl, heE, hcc ▸ heFst⟩
      · intro hnone
        exact absurd hnone (by simp)
  · rfl

/-- Witness for `sort_list_total`: the two-edge cycle
`[("A","B"), ("B","A")]` with required list `["B"]`. -/
theorem sort_list_total_witness :
    (∃ out, sort_list ["B"] [("A","B"), ("B","A")] = some out ∧ out ≠ [] ∧
      out.Nodup ∧ (∀ e ∈ out, e ∈ [("A","B"), ("B","A")]) ∧
      List.Chain' (fun a b => a.2 = b.1) out ∧
      (∀ c, (["B"].find?
          (fun s => decide (s ∈ ([("A","B"), ("B","A")].map Prod.fst)))) = some c →
        ∃ e, out.head? = some e ∧ e ∈ [("A","B"), ("B","A")] ∧ e.1 = c) ∧
      ((["B"].find?
          (fun s => decide (s ∈ ([("A","B"), ("B","A")].map Prod.fst)))) = none →
        out.head? = [("A","B"), ("B","A")].head?)) ∧
    sort_list ([] : List String) [("A","B"), ("B","A"), ("C","D"), ("D","C")]
      = some [("A","B"), ("B","A")] :=
  sort_list_total ["B"] [("A","B"), ("B","A")] (by decide) (by decide) (by decide)

/-! ## Claim C5 -/

/-- Claim C5 counterexample: one exchange's ticker fetch raising (slot
`none` from `multiThread`) does not leave the sibling's data and proceed —
`update_transit_price`'s `self.price.update(exc_price)` raises `TypeError`
on the `None` slot, so the whole update raises instead of substituting
empty/zero data. -/
theorem snapshot_failure_raises_counterexample :
    updatePriceAggregate
      (multiThreadModel
        (fun e => if e = "e1"
          then some [((("e1", "BTC"), ("e1", "USDT")), ⟨20000, 20001, some 5⟩)]
          else none)
        ["e1", "e2"])
      = Except.error "TypeError: NoneType object is not iterable" := rfl

theorem updatePriceAggregate_error_of_none
    (results : List (Option (List ((Node × Node) × Ticker))))
    (h : none ∈ results) :
    ∃ msg, updatePriceAggregate results = Except.error msg := by
  have haux : ∀ (rs : List (Option (List ((Node × Node) × Ticker))))
      (acc : List ((Node × Node) × Ticker)), none ∈ rs →
      ∃ msg, rs.foldlM
        (fun acc r =>
          match r with
          | none => Except.error "TypeError: NoneType object is not iterable"
          | some d => Except.ok (pyDictUpdate acc d))
        acc = Except.error msg := by
    intro rs
    induction rs with
    | nil =>
      intro acc h
      exact absurd h (List.not_mem_nil none)
    | cons r rest ih =>
      intro acc h
      cases r with
      | none => exact ⟨"TypeError: NoneType object is not iterable", rfl⟩
      | some d =>
        have hrest : none ∈ rest := by
          rcases List.mem_cons.mp h with h1 | h1
          · exact absurd h1.symm (Option.some_ne_none d)
          · exact h1
        exact ih (pyDictUpdate acc d) hrest
  exact haux results [] h

theorem updateBalanceAggregate_error_of_none (excs : List String)
    (coin_set : List String) (crypto_price : String → ℚ)
    (results : List (Option (List (String × ℚ))))
    (hlen : excs.length = results.length) (h : none ∈ results) :
    ∃ msg, updateBalanceAggregate excs coin_set crypto_price results
      = Except.error msg := by
  have haux : ∀ (es : List String) (rs : List (Option (List (String × ℚ))))
      (acc : List (Node × (ℚ × ℚ))), es.length = rs.length → none ∈ rs →
      ∃ msg, (es.zip rs).foldlM
        (fun acc er =>
          match er.2 with
          | none => Except.error "AttributeError: NoneType object has no attribute keys"
          | some bal => Except.ok (acc ++ processExcBal er.1 coin_set crypto_price bal))
        acc = Except.error msg := by
    intro es
    induction es with
    | nil =>
      intro rs acc hl h
      cases rs with
      | nil => exact absurd h (List.not_mem_nil none)
      | cons r rest => exact absurd hl (by simp)
    | cons e es ih =>
      intro rs acc hl h
      cases rs with
      | nil => exact absurd h (List.not_mem_nil none)
      | cons r rest =>
        cases r with
        | none => exact ⟨"AttributeError: NoneType object has no attribute keys", rfl⟩
        | some bal =>
          have hrest : none ∈ rest := by
            rcases List.mem_cons.mp h with h1 | h1
            · exact absurd h1.symm (Option.some_ne_none bal)
            · exact h1
          exact ih rest _ (by simpa using hl) hrest
  exact haux excs results [] hlen h

/-- Claim C5 (amended): `multiThread` does isolate failures — output slot
`i` is `func` applied to input `i` alone, an exception becoming `None`, so
one exchange's failure cannot abort or disturb its siblings' results — but
the failed slice is `None`, not empty/zero data, and both consumers raise
on it: `update_transit_price` raises `TypeError` on `dict.update(None)` and
`update_balance` raises `AttributeError` iterating `None`, so the whole
update raises rather than proceeding on the remainder. -/
theorem multithread_isolates_but_consumers_raise
    {α β : Type} (func : α → Option β) (l : List α) (i : ℕ)
    (coin_set : List String) (crypto_price : String → ℚ) (excs : List String)
    (priceResults : List (Option (List ((Node × Node) × Ticker))))
    (balResults : List (Option (List (String × ℚ))))
    (hp : none ∈ priceResults)
    (hlen : excs.length = balResults.length) (hb : none ∈ balResults) :
    (multiThreadModel func l)[i]? = (l[i]?).map func ∧
    (∃ msg, updatePriceAggregate priceResults = Except.error msg) ∧
    (∃ msg, updateBalanceAggregate excs coin_set crypto_price balResults
      = Except.error msg) := by
  refine ⟨?_, updatePriceAggregate_error_of_none priceResults hp,
    updateBalanceAggregate_error_of_none excs coin_set crypto_price balResults hlen hb⟩
  simp [multiThreadModel]

/-- Witness for `multithread_isolates_but_consumers_raise`: two exchanges,
the second fetch failing. -/
theorem multithread_isolates_witness :
    (multiThreadModel (fun e => if e = "e1" then some (1 : ℚ) else none)
        ["e1", "e2"])[1]?
        = ((["e1", "e2"] : List String)[1]?).map
            (fun e => if e = "e1" then some (1 : ℚ) else none) ∧
    (∃ msg, updatePriceAggregate [some [], none] = Except.error msg) ∧
    (∃ msg, updateBalanceAggregate ["e1", "e2"] ["BTC"] (fun _ => 10)
        [some [("BTC", 2)], none] = Except.error msg) :=
  multithread_isolates_but_consumers_raise
    (fun e => if e = "e1" then some (1 : ℚ) else none) ["e1", "e2"] 1
    ["BTC"] (fun _ => 10) ["e1", "e2"] [some [], none] [some [("BTC", 2)], none]
    (by simp) (by simp) (by simp)

/-! ## Claim C2 -/

/-- Claim C2 counterexample: when the solver returns no solution (docplex
`solve()` returns `None` on infeasible), `find_arbitrage` raises
`AttributeError` at `ms.get_values(self.var)` (line 105) instead of
publishing an empty path with profit 0. -/
theorem find_arbitrage_infeasible_raises_counterexample :
    findArbitragePost (fun q => q + 1) (fun _ => 0) [] none
      = Except.error "AttributeError: NoneType object has no attribute get_values" := rfl

/-- Claim C2 (amended): on every `find_arbitrage` call where the solver
returns a solution, the reported profit rate is `exp(objective) - 1`
(`exp` abstract with `exp 0 = 1`), and when the solution selects no edges
the published path is empty and the profit rate is 0; the all-zero
assignment satisfies every MIP-1 constraint (so the model is never
infeasible), but were the solver to return no solution the call would raise
`AttributeError` rather than report "no opportunity" (see the
counterexample). -/
theorem find_arbitrage_profit_formula (e : ℚ → ℚ) (w : String × String → ℚ)
    (required : List String) (edges p : List (String × String))
    (h0 : e 0 = 1) :
    (sort_list required edges = some p →
      findArbitragePost e w required (some edges)
        = Except.ok (p, e (objectiveValue w edges) - 1)) ∧
    findArbitragePost e w required (some []) = Except.ok ([], 0) ∧
    (∀ (n L : ℕ) (req : List (Fin n)) (hasCh : Bool),
      pathConstraintsHold n L req hasCh (fun _ _ => 0)) := by
  refine ⟨?_, ?_, ?_⟩
  · intro hs
    simp [findArbitragePost, hs]
  · have hz : objectiveValue w [] = 0 := rfl
    simp [findArbitragePost, sort_list, hz, h0]
  · intro n L req hasCh
    refine ⟨fun i j => Or.inl rfl, by simp, by simp, by simp, by simp, ?_⟩
    intro _
    simp

/-- Witness for `find_arbitrage_profit_formula`: a two-edge cycle with unit
log-weights and `exp` instantiated as `q + 1`. -/
theorem find_arbitrage_profit_formula_witness :
    (sort_list ([] : List String) [("A","B"), ("B","A")]
        = some [("A","B"), ("B","A")] →
      findArbitragePost (fun q => q + 1) (fun _ => 1) []
          (some [("A","B"), ("B","A")])
        = Except.ok ([("A","B"), ("B","A")],
            objectiveValue (fun _ => (1 : ℚ)) [("A","B"), ("B","A")] + 1 - 1)) ∧
    findArbitragePost (fun q => q + 1) (fun _ => (1 : ℚ)) [] (some [])
      = Except.ok ([], 0) ∧
    (∀ (n L : ℕ) (req : List (Fin n)) (hasCh : Bool),
      pathConstraintsHold n L req hasCh (fun _ _ => 0)) :=
  find_arbitrage_profit_formula (fun q => q + 1) (fun _ => 1) []
    [("A","B"), ("B","A")] [("A","B"), ("B","A")] (by norm_num)

/-! ## Claim C8 -/

/-- Claim C8 (code bug): the per-leg precision step.  Inter-exchange legs do
get step `10^-5` and legs with a reported amount precision `d` get `10^-d`,
but the claimed fallback `d = default_precision = 3` is broken by an
initialization-order slip: `__init__` calls `get_precision()` (line 42)
*before* `self.default_precision = 3` (line 47), so the fallback read at the
only call site is the class-level `None` (line 36); a pair reporting no
amount precision therefore stores `None`, and `set_precision_matrix` raises
`TypeError` on `10 ** -None` instead of using `10^-3`.  With the intended
fallback `3` (last conjunct) the behavior would match the claim. -/
theorem precision_default_none_code_bug :
    getPrecision [("e1", [(("AAA","BBB"), none), (("AAA","CCC"), some 2)])]
        [("e1","AAA"), ("e2","AAA")] true none
        ((("e1","AAA"), ("e1","BBB"))) = some none ∧
    setPrecisionMatrix
        (getPrecision [("e1", [(("AAA","BBB"), none), (("AAA","CCC"), some 2)])]
          [("e1","AAA"), ("e2","AAA")] true none)
        [((("e1","AAA"), ("e1","BBB")), false)]
      = Except.error "TypeError: bad operand type for unary -: NoneType" ∧
    getPrecision [("e1", [(("AAA","BBB"), none), (("AAA","CCC"), some 2)])]
        [("e1","AAA"), ("e2","AAA")] true none
        ((("e1","AAA"), ("e2","AAA"))) = some (some 5) ∧
    setPrecisionMatrix
        (getPrecision [("e1", [(("AAA","BBB"), none), (("AAA","CCC"), some 2)])]
          [("e1","AAA"), ("e2","AAA")] true none)
        [((("e1","AAA"), ("e2","AAA")), false)]
      = Except.ok [(10 : ℚ) ^ (-(5 : ℤ))] ∧
    setPrecisionMatrix
        (getPrecision [("e1", [(("AAA","BBB"), none), (("AAA","CCC"), some 2)])]
          [("e1","AAA"), ("e2","AAA")] true none)
        [((("e1","AAA"), ("e1","CCC")), false)]
      = Except.ok [(10 : ℚ) ^ (-(2 : ℤ))] ∧
    setPrecisionMatrix
        (getPrecision [("e1", [(("AAA","BBB"), none), (("AAA","CCC"), some 2)])]
          [("e1","AAA"), ("e2","AAA")] true (some 3))
        [((("e1","AAA"), ("e1","BBB")), false)]
      = Except.ok [(10 : ℚ) ^ (-(3 : ℤ))] :=
  ⟨rfl, rfl, rfl, rfl, rfl, rfl⟩

/-! ## Claim C3 -/

theorem row_sums_eq_one {n : ℕ} (f : Fin n → ℤ) (hle : ∀ i, f i ≤ 1)
    (hsum : (∑ i, f i) = (n : ℤ)) : ∀ i, f i = 1 := by
  have h0 : (∑ i, ((1 : ℤ) - f i)) = 0 := by
    rw [Finset.sum_sub_distrib, hsum]
    simp
  have hz := (Finset.sum_eq_zero_iff_of_nonneg
    (fun i _ => by have := hle i; omega)).mp h0
  intro i
  have := hz i (Finset.mem_univ i)
  omega

/-- Claim C3: for every assignment satisfying the MIP-2 constraint system,
each of the `P` legs has exactly one order-book layer selected (the total
`y` count equals `P` and each `y`-row sums to at most 1), and for every leg
`i` and layer `j` the real amount `z[i,j] = x[i,j] * precision[i]` is at
most `trade_amt_ptc` times the cumulative depth `amt_matrix[i,j]`. -/
theorem amt_solution_one_layer_and_depth_cap (m : AmtModel)
    (x y : Fin m.path_n → Fin m.orderbook_n → ℤ)
    (hsat : satisfiesAmtConstraints m x y) :
    (∀ i, (∑ j, y i j) = 1) ∧
    (∀ i j, (x i j : ℚ) * m.precision_matrix i
      ≤ m.trade_amt_ptc * m.amt_matrix i j) := by
  obtain ⟨_, htot, hrow, _, hdepth, _, _, _, _⟩ := hsat
  exact ⟨row_sums_eq_one (fun i => ∑ j, y i j) hrow htot, hdepth⟩

/-- Witness for `amt_solution_one_layer_and_depth_cap`: the one-leg model
`amtModelExample` with `x = 0` and `y = 1`. -/
theorem amt_solution_one_layer_witness :
    satisfiesAmtConstraints amtModelExample (fun _ _ => 0) (fun _ _ => 1) ∧
    (∀ _i : Fin amtModelExample.path_n,
      (∑ _j : Fin amtModelExample.orderbook_n, (1 : ℤ)) = 1) ∧
    (∀ (i : Fin amtModelExample.path_n) (j : Fin amtModelExample.orderbook_n),
      ((0 : ℤ) : ℚ) * amtModelExample.precision_matrix i
        ≤ amtModelExample.trade_amt_ptc * amtModelExample.amt_matrix i j) := by
  have hsat : satisfiesAmtConstraints amtModelExample (fun _ _ => 0) (fun _ _ => 1) := by
    refine ⟨fun i j => Or.inr rfl, ?_, fun i => ?_, fun i j => ?_, fun i j => ?_,
      ?_, ?_, ?_, fun i j => le_refl 0⟩
    · show (∑ _i : Fin 1, ∑ _j : Fin 1, (1 : ℤ)) = ((1 : ℕ) : ℤ)
      simp
    · show (∑ _j : Fin 1, (1 : ℤ)) ≤ 1
      simp
    · show ((0 : ℤ) : ℚ) ≤ (10 : ℚ) ^ 10 * ((1 : ℤ) : ℚ)
      norm_num
    · show ((0 : ℤ) : ℚ) * (1 / 1000) ≤ 1 * 5
      norm_num
    · show if _h : 0 < (1 : ℕ) then
          (if (false : Bool) = false
           then (∑ _j : Fin 1, ((0 : ℤ) : ℚ) * (1 / 1000)) ≤ 10
           else (∑ _j : Fin 1, ((0 : ℤ) : ℚ) * (1 / 1000) * 2) ≤ 10)
          else True
      norm_num
    · intro i d hd b hb
      have hd2 : (some [((("e", "BTC") : Node), (10 : ℚ))] : Option (List (Node × ℚ)))
          = some d := hd
      have hb2 : (none : Option ℚ) = some b := by
        rw [← Option.some_inj.mp hd2] at hb
        exact hb
      exact absurd hb2 (by simp)
    · intro i h1
      have h2 : i.val < 1 := i.isLt
      exact absurd h1 (by omega)
  exact ⟨hsat,
    (amt_solution_one_layer_and_depth_cap amtModelExample _ _ hsat).1,
    (amt_solution_one_layer_and_depth_cap amtModelExample _ _ hsat).2⟩

/-! ## Claim C4 -/

theorem lastAssoc_flatMap_avoid {α : Type} (l : List α) (g : α → List (Cell × ℚ))
    (c : Cell) (h : ∀ a ∈ l, ∀ w ∈ g a, w.1 ≠ c) :
    lastAssoc (l.flatMap g) c = none :=
  lastAssoc_eq_none _ c (fun w hw => by
    obtain ⟨a, ha, hwa⟩ := List.mem_flatMap.mp hw
    exact h a ha w hwa)

theorem lastAssoc_flatMap_unique {α : Type} (l : List α)
    (g : α → List (Cell × ℚ)) (c : Cell) (pm : α → Bool) (x : α) (v : Option ℚ)
    (hfilter : l.filter pm = [x])
    (hothers : ∀ a ∈ l, pm a = false → ∀ w ∈ g a, w.1 ≠ c)
    (hx : lastAssoc (g x) c = v) :
    lastAssoc (l.flatMap g) c = v := by
  induction l with
  | nil => simp at hfilter
  | cons a rest ih =>
    rw [List.flatMap_cons, lastAssoc_append]
    cases hpa : pm a with
    | true =>
      have hcons : a :: rest.filter pm = [x] := by
        rw [← hfilter, List.filter_cons, if_pos (by simp [hpa])]
      have hax : a = x := (List.cons_eq_cons.mp hcons).1
      have hrest : rest.filter pm = [] := (List.cons_eq_cons.mp hcons).2
      have hrnone : lastAssoc (rest.flatMap g) c = none := by
        apply lastAssoc_flatMap_avoid
        intro b hb w hw
        have hpb : pm b = false := by
          cases hpb2 : pm b with
          | false => rfl
          | true =>
            exfalso
            have : b ∈ rest.filter pm := List.mem_filter.mpr ⟨hb, hpb2⟩
            rw [hrest] at this
            exact List.not_mem_nil b this
        exact hothers b (List.mem_cons_of_mem a hb) hpb w hw
      rw [hrnone, hax, hx]
    | false =>
      have hfilter' : rest.filter pm = [x] := by
        rw [← hfilter, List.filter_cons, if_neg (by simp [hpa])]
      have hanone : ∀ w ∈ g a, w.1 ≠ c :=
        hothers a (List.mem_cons_self a rest) hpa
      rw [ih hfilter' (fun b hb => hothers b (List.mem_cons_of_mem a hb))]
      cases hv : v with
      | some v0 => rfl
      | none =>
        exact lastAssoc_eq_none (g a) c hanone

theorem usdValues_key (c : SnapCfg) (pct : ℚ) (u : (Node × Node) × ℚ)
    (hu : u ∈ usdValues c pct) : ∃ kv ∈ c.price, kv.1 = u.1 := by
  obtain ⟨kv, hkv, hmap⟩ := List.mem_filterMap.mp hu
  refine ⟨kv, hkv, ?_⟩
  cases hcp : alookup c.crypto_prices kv.1.1.2 with
  | none =>
    rw [hcp] at hmap
    cases hbv : kv.2.baseVolume with
    | none =>
      rw [hbv] at hmap
      exact absurd (hmap : (none : Option ((Node × Node) × ℚ)) = some u) (by simp)
    | some bv =>
      rw [hbv] at hmap
      exact absurd (hmap : (none : Option ((Node × Node) × ℚ)) = some u) (by simp)
  | some op =>
    rw [hcp] at hmap
    cases op with
    | none =>
      cases hbv : kv.2.baseVolume with
      | none =>
        rw [hbv] at hmap
        exact absurd (hmap : (none : Option ((Node × Node) × ℚ)) = some u) (by simp)
      | some bv =>
        rw [hbv] at hmap
        exact absurd (hmap : (none : Option ((Node × Node) × ℚ)) = some u) (by simp)
    | some pr =>
      cases hbv : kv.2.baseVolume with
      | none =>
        rw [hbv] at hmap
        exact absurd (hmap : (none : Option ((Node × Node) × ℚ)) = some u) (by simp)
      | some bv =>
        rw [hbv] at hmap
        have h2 : (some (kv.1, bv * pr * pct) : Option ((Node × Node) × ℚ)) = some u :=
          hmap
        rw [← Option.some_inj.mp h2]

theorem lastAssoc_single (w1 : Cell × ℚ) (c0 : Cell) (h1 : w1.1 = c0) :
    lastAssoc [w1] c0 = some w1.2 := by
  simp [lastAssoc, h1]

theorem lastAssoc_pair_first (w1 w2 : Cell × ℚ) (c0 : Cell)
    (h1 : w1.1 = c0) (h2 : w2.1 ≠ c0) : lastAssoc [w1, w2] c0 = some w1.2 := by
  simp [lastAssoc, h1, h2]

theorem lastAssoc_pair_second (w1 w2 : Cell × ℚ) (c0 : Cell)
    (h2 : w2.1 = c0) : lastAssoc [w1, w2] c0 = some w2.2 := by
  simp [lastAssoc, h2]

/-- Claim C4: after `update_vol_matrix`, for every inter-exchange candidate
pair `(f, t)` (under the well-formedness of the real data: index table
injective on the node set, ticker keys same-exchange, candidate pairs
cross-exchange and listed once), the `f→t` entry equals the `t`-side USD
balance plus the `f`-side USD withdrawal fee when the `f` side has a
withdrawal fee — with the balance term replaced by the largest double
(`np.nan_to_num(np.inf)`, i.e. "+∞") when `consider_inter_exc_bal` is
false — and symmetrically for `t→f`; a direction whose source side has no
withdrawal fee stays 0. -/
theorem vol_matrix_inter_exchange (c : SnapCfg) (f t : Node)
    (hmemf : f ∈ c.currency_set) (hmemt : t ∈ c.currency_set)
    (hfx : f.1 ≠ t.1)
    (hinj : ∀ y ∈ c.currency_set, ∀ z ∈ c.currency_set,
      c.currency2index y = c.currency2index z → y = z)
    (hintermem : ∀ p ∈ c.inter_convert_list,
      p.1 ∈ c.currency_set ∧ p.2 ∈ c.currency_set)
    (hprice : ∀ kv ∈ c.price, kv.1.1.1 = kv.1.2.1)
    (huniq : c.inter_convert_list.filter
        (fun p => decide (p = (f, t) ∨ p = (t, f))) = [(f, t)]) :
    (∀ wf, alookup c.withdrawal_fee f = some wf →
      update_vol_matrix c (1/100) (c.currency2index f, c.currency2index t)
        = (if c.consider_inter_exc_bal then (alookup c.balance_dict t).getD 0
           else floatMax) + wf.usd_fee) ∧
    (∀ wf, alookup c.withdrawal_fee t = some wf →
      update_vol_matrix c (1/100) (c.currency2index t, c.currency2index f)
        = (if c.consider_inter_exc_bal then (alookup c.balance_dict f).getD 0
           else floatMax) + wf.usd_fee) ∧
    (alookup c.withdrawal_fee f = none →
      update_vol_matrix c (1/100) (c.currency2index f, c.currency2index t) = 0) ∧
    (alookup c.withdrawal_fee t = none →
      update_vol_matrix c (1/100) (c.currency2index t, c.currency2index f) = 0) := by
  have hft : f ≠ t := fun h => hfx (by rw [h])
  have hab : c.currency2index f ≠ c.currency2index t :=
    fun h => hft (hinj f hmemf t hmemt h)
  have hpAvoid : ∀ cell : Cell,
      cell = (c.currency2index f, c.currency2index t) ∨
      cell = (c.currency2index t, c.currency2index f) →
      lastAssoc ((usdValues c (1/100)).flatMap (priceVolWrite c)) cell = none := by
    intro cell hcell
    apply lastAssoc_flatMap_avoid
    intro u hu w hw
    unfold priceVolWrite at hw
    by_cases hm : u.1.1 ∈ c.currency_set ∧ u.1.2 ∈ c.currency_set
    · rw [if_pos hm] at hw
      obtain ⟨kv, hkv, hkey⟩ := usdValues_key c (1/100) u hu
      have hsame : u.1.1.1 = u.1.2.1 := by
        rw [← hkey]
        exact hprice kv hkv
      have hcase : ∀ y z : Node, y ∈ c.currency_set → z ∈ c.currency_set →
          y.1 = z.1 → (c.currency2index y, c.currency2index z) ≠ cell := by
        intro y z hy hz hyz heq
        rcases hcell with hc | hc <;> rw [hc] at heq
        · have h1 : y = f := hinj y hy f hmemf (congrArg Prod.fst heq)
          have h2 : z = t := hinj z hz t hmemt (congrArg Prod.snd heq)
          exact hfx (h1 ▸ h2 ▸ hyz)
        · have h1 : y = t := hinj y hy t hmemt (congrArg Prod.fst heq)
          have h2 : z = f := hinj z hz f hmemf (congrArg Prod.snd heq)
          exact hfx (h1 ▸ h2 ▸ hyz).symm
      rcases List.mem_cons.mp hw with hwEq | hwRest
      · rw [hwEq]
        exact hcase u.1.1 u.1.2 hm.1 hm.2 hsame
      · rw [List.mem_singleton.mp hwRest]
        exact hcase u.1.2 u.1.1 hm.2 hm.1 hsame.symm
    · rw [if_neg hm] at hw
      exact absurd hw (List.not_mem_nil w)
  have hothersAvoid : ∀ cell : Cell,
      cell = (c.currency2index f, c.currency2index t) ∨
      cell = (c.currency2index t, c.currency2index f) →
      ∀ p ∈ c.inter_convert_list,
      (fun p => decide (p = (f, t) ∨ p = (t, f))) p = false →
      ∀ w ∈ interVolWrite c p, w.1 ≠ cell := by
    intro cell hcell p hp hpm w hw
    have hnp : ¬(p = (f, t) ∨ p = (t, f)) := of_decide_eq_false hpm
    obtain ⟨hp1, hp2⟩ := hintermem p hp
    intro heq
    unfold interVolWrite at hw
    rcases List.mem_append.mp hw with hw1 | hw1
    · cases hwf : alookup c.withdrawal_fee p.1 with
      | none =>
        rw [hwf] at hw1
        exact absurd hw1 (List.not_mem_nil w)
      | some wf =>
        rw [hwf] at hw1
        rw [List.mem_singleton.mp hw1] at heq
        rcases hcell with hc | hc <;> rw [hc] at heq
        · have h1 : p.1 = f := hinj _ hp1 _ hmemf (congrArg Prod.fst heq)
          have h2 : p.2 = t := hinj _ hp2 _ hmemt (congrArg Prod.snd heq)
          exact hnp (Or.inl (Prod.ext h1 h2))
        · have h1 : p.1 = t := hinj _ hp1 _ hmemt (congrArg Prod.fst heq)
          have h2 : p.2 = f := hinj _ hp2 _ hmemf (congrArg Prod.snd heq)
          exact hnp (Or.inr (Prod.ext h1 h2))
    · cases hwf : alookup c.withdrawal_fee p.2 with
      | none =>
        rw [hwf] at hw1
        exact absurd hw1 (List.not_mem_nil w)
      | some wf =>
        rw [hwf] at hw1
        rw [List.mem_singleton.mp hw1] at heq
        rcases hcell with hc | hc <;> rw [hc] at heq
        · have h1 : p.2 = f := hinj _ hp2 _ hmemf (congrArg Prod.fst heq)
          have h2 : p.1 = t := hinj _ hp1 _ hmemt (congrArg Prod.snd heq)
          exact hnp (Or.inr (Prod.ext h2 h1))
        · have h1 : p.2 = t := hinj _ hp2 _ hmemt (congrArg Prod.fst heq)
          have h2 : p.1 = f := hinj _ hp1 _ hmemf (congrArg Prod.snd heq)
          exact hnp (Or.inl (Prod.ext h2 h1))
  refine ⟨?_, ?_, ?_, ?_⟩
  · intro wf hwf
    have hx : lastAssoc (interVolWrite c (f, t))
        (c.currency2index f, c.currency2index t)
        = some ((if c.consider_inter_exc_bal then (alookup c.balance_dict t).getD 0
            else floatMax) + wf.usd_fee) := by
      unfold interVolWrite
      dsimp only
      rw [hwf]
      cases hwt : alookup c.withdrawal_fee t with
      | none =>
        rw [List.append_nil]
        exact lastAssoc_single _ _ rfl
      | some wt =>
        exact lastAssoc_pair_first _ _ _ rfl
          (fun heq => hab ((congrArg Prod.fst heq).symm))
    unfold update_vol_matrix applyWrites volWrites
    rw [lastAssoc_append,
      lastAssoc_flatMap_unique c.inter_convert_list (interVolWrite c) _
        (fun p => decide (p = (f, t) ∨ p = (t, f))) (f, t) _ huniq
        (hothersAvoid _ (Or.inl rfl)) hx]
    rfl
  · intro wf hwf
    have hx : lastAssoc (interVolWrite c (f, t))
        (c.currency2index t, c.currency2index f)
        = some ((if c.consider_inter_exc_bal then (alookup c.balance_dict f).getD 0
            else floatMax) + wf.usd_fee) := by
      unfold interVolWrite
      dsimp only
      rw [hwf]
      cases hwff : alookup c.withdrawal_fee f with
      | none =>
        rw [List.nil_append]
        exact lastAssoc_single _ _ rfl
      | some wff =>
        exact lastAssoc_pair_second _ _ _ rfl
    unfold update_vol_matrix applyWrites volWrites
    rw [lastAssoc_append,
      lastAssoc_flatMap_unique c.inter_convert_list (interVolWrite c) _
        (fun p => decide (p = (f, t) ∨ p = (t, f))) (f, t) _ huniq
        (hothersAvoid _ (Or.inr rfl)) hx]
    rfl
  · intro hwf
    have hinterNone : lastAssoc (c.inter_convert_list.flatMap (interVolWrite c))
        (c.currency2index f, c.currency2index t) = none := by
      apply lastAssoc_flatMap_avoid
      intro p hp w hw
      by_cases hpm : p = (f, t) ∨ p = (t, f)
      · have hpf : p = (f, t) := by
          have hmemfil : p ∈ c.inter_convert_list.filter
              (fun p => decide (p = (f, t) ∨ p = (t, f))) :=
            List.mem_filter.mpr ⟨hp, decide_eq_true hpm⟩
          rw [huniq] at hmemfil
          exact List.mem_singleton.mp hmemfil
        rw [hpf] at hw
        unfold interVolWrite at hw
        dsimp only at hw
        rw [hwf, List.nil_append] at hw
        cases hwt : alookup c.withdrawal_fee t with
        | none =>
          rw [hwt] at hw
          exact absurd hw (List.not_mem_nil w)
        | some wt =>
          rw [hwt] at hw
          rw [List.mem_singleton.mp hw]
          intro heq
          exact hab ((congrArg Prod.fst heq).symm)
      · exact hothersAvoid _ (Or.inl rfl) p hp (decide_eq_false hpm) w hw
    unfold update_vol_matrix applyWrites volWrites
    rw [lastAssoc_append, hinterNone, hpAvoid _ (Or.inl rfl)]
    rfl
  · intro hwf
    have hinterNone : lastAssoc (c.inter_convert_list.flatMap (interVolWrite c))
        (c.currency2index t, c.currency2index f) = none := by
      apply lastAssoc_flatMap_avoid
      intro p hp w hw
      by_cases hpm : p = (f, t) ∨ p = (t, f)
      · have hpf : p = (f, t) := by
          have hmemfil : p ∈ c.inter_convert_list.filter
              (fun p => decide (p = (f, t) ∨ p = (t, f))) :=
            List.mem_filter.mpr ⟨hp, decide_eq_true hpm⟩
          rw [huniq] at hmemfil
          exact List.mem_singleton.mp hmemfil
        rw [hpf] at hw
        unfold interVolWrite at hw
        dsimp only at hw
        rw [hwf, List.append_nil] at hw
        cases hwff : alookup c.withdrawal_fee f with
        | none =>
          rw [hwff] at hw
          exact absurd hw (List.not_mem_nil w)
        | some wff =>
          rw [hwff] at hw
          rw [List.mem_singleton.mp hw]
          intro heq
          exact hab (congrArg Prod.fst heq)
      · exact hothersAvoid _ (Or.inr rfl) p hp (decide_eq_false hpm) w hw
    unfold update_vol_matrix applyWrites volWrites
    rw [lastAssoc_append, hinterNone, hpAvoid _ (Or.inr rfl)]
    rfl

/-- Witness for `vol_matrix_inter_exchange`: the pair
`(("e1","BTC"), ("e2","BTC"))` of `snapCfgExample`, whose `e1` side has a
withdrawal fee (USD fee 2) and whose `e2` side has none. -/
theorem vol_matrix_inter_exchange_witness :
    update_vol_matrix snapCfgExample (1 / 100)
        (snapCfgExample.currency2index ("e1", "BTC"),
         snapCfgExample.currency2index ("e2", "BTC"))
      = (if snapCfgExample.consider_inter_exc_bal then
          (alookup snapCfgExample.balance_dict ("e2", "BTC")).getD 0
         else floatMax) + (⟨2, 1 / 1000, 1 / 10000⟩ : WFee).usd_fee ∧
    update_vol_matrix snapCfgExample (1 / 100)
        (snapCfgExample.currency2index ("e2", "BTC"),
         snapCfgExample.currency2index ("e1", "BTC"))
      = 0 :=
  ⟨(vol_matrix_inter_exchange snapCfgExample ("e1", "BTC") ("e2", "BTC")
      (by decide) (by decide) (by decide) (by decide) (by decide) (by decide)
      (by decide)).1 ⟨2, 1 / 1000, 1 / 10000⟩ rfl,
   (vol_matrix_inter_exchange snapCfgExample ("e1", "BTC") ("e2", "BTC")
      (by decide) (by decide) (by decide) (by decide) (by decide) (by decide)
      (by decide)).2.2.2 rfl⟩

/-! ## Claim C6 -/

/-- Claim C6: after `update_transit_price` (under the well-formedness of the
real data: index table injective on the node set, ticker keys same-exchange
pairs listed once, candidate pairs cross-exchange listed once), every listed
pair with both `bid` and `ask` nonzero gets `transit_price[from,to] = bid`
and `transit_price[to,from] = 1/ask`; a listed pair with a zero `bid` or
`ask` leaves both entries 0; and every inter-exchange candidate direction is
1 when its source node has a withdrawal fee and 0 otherwise. -/
theorem transit_price_entries (c : SnapCfg)
    (hinj : ∀ y ∈ c.currency_set, ∀ z ∈ c.currency_set,
      c.currency2index y = c.currency2index z → y = z)
    (hinterAll : ∀ p ∈ c.inter_convert_list,
      p.1 ∈ c.currency_set ∧ p.2 ∈ c.currency_set ∧ p.1.1 ≠ p.2.1)
    (hpriceSame : ∀ kv ∈ c.price, kv.1.1.1 = kv.1.2.1) :
    (∀ (p q : Node) (tk : Ticker), ((p, q), tk) ∈ c.price →
      p ∈ c.currency_set → q ∈ c.currency_set → p ≠ q →
      c.price.filter (fun e => decide (e.1 = (p, q) ∨ e.1 = (q, p)))
        = [((p, q), tk)] →
      (tk.bid ≠ 0 → tk.ask ≠ 0 →
        update_transit_price c (c.currency2index p, c.currency2index q) = tk.bid ∧
        update_transit_price c (c.currency2index q, c.currency2index p)
          = 1 / tk.ask) ∧
      ((tk.bid = 0 ∨ tk.ask = 0) →
        update_transit_price c (c.currency2index p, c.currency2index q) = 0 ∧
        update_transit_price c (c.currency2index q, c.currency2index p) = 0)) ∧
    (∀ f t : Node, (f, t) ∈ c.inter_convert_list →
      c.inter_convert_list.filter (fun e => decide (e = (f, t) ∨ e = (t, f)))
        = [(f, t)] →
      update_transit_price c (c.currency2index f, c.currency2index t)
        = (if (alookup c.withdrawal_fee f).isSome then 1 else 0) ∧
      update_transit_price c (c.currency2index t, c.currency2index f)
        = (if (alookup c.withdrawal_fee t).isSome then 1 else 0)) := by
  have hinterAvoid : ∀ y z : Node, y ∈ c.currency_set → z ∈ c.currency_set →
      y.1 = z.1 → ∀ pr ∈ c.inter_convert_list, ∀ w ∈ interTransitWrite c pr,
      w.1 ≠ (c.currency2index y, c.currency2index z) := by
    intro y z hy hz hyz pr hpr w hw
    obtain ⟨hpr1, hpr2, hprx⟩ := hinterAll pr hpr
    intro heq
    unfold interTransitWrite at hw
    rcases List.mem_cons.mp hw with hwEq | hwRest
    · rw [hwEq] at heq
      have h1 : pr.1 = y := hinj _ hpr1 _ hy (congrArg Prod.fst heq)
      have h2 : pr.2 = z := hinj _ hpr2 _ hz (congrArg Prod.snd heq)
      apply hprx
      rw [h1, h2]
      exact hyz
    · rw [List.mem_singleton.mp hwRest] at heq
      have h1 : pr.2 = y := hinj _ hpr2 _ hy (congrArg Prod.fst heq)
      have h2 : pr.1 = z := hinj _ hpr1 _ hz (congrArg Prod.snd heq)
      apply hprx
      rw [h1, h2]
      exact hyz.symm
  constructor
  · intro p q tk hmem hp hq hpq huniqP
    have hiq : c.currency2index p ≠ c.currency2index q :=
      fun h => hpq (hinj p hp q hq h)
    have hsame : p.1 = q.1 := hpriceSame ((p, q), tk) hmem
    have hpriceOthers : ∀ cell : Cell,
        cell = (c.currency2index p, c.currency2index q) ∨
        cell = (c.currency2index q, c.currency2index p) →
        ∀ e ∈ c.price, (fun e => decide (e.1 = (p, q) ∨ e.1 = (q, p))) e = false →
        ∀ w ∈ priceTransitWrite c e, w.1 ≠ cell := by
      intro cell hcell e he hpm w hw
      have hne : ¬(e.1 = (p, q) ∨ e.1 = (q, p)) := of_decide_eq_false hpm
      unfold priceTransitWrite at hw
      by_cases hg : e.1.1 ∈ c.currency_set ∧ e.1.2 ∈ c.currency_set ∧
          e.2.ask ≠ 0 ∧ e.2.bid ≠ 0
      · rw [if_pos hg] at hw
        intro heq
        rcases List.mem_cons.mp hw with hwEq | hwRest
        · rw [hwEq] at heq
          rcases hcell with hc | hc <;> rw [hc] at heq
          · have h1 : e.1.1 = p := hinj _ hg.1 _ hp (congrArg Prod.fst heq)
            have h2 : e.1.2 = q := hinj _ hg.2.1 _ hq (congrArg Prod.snd heq)
            exact hne (Or.inl (Prod.ext h1 h2))
          · have h1 : e.1.1 = q := hinj _ hg.1 _ hq (congrArg Prod.fst heq)
            have h2 : e.1.2 = p := hinj _ hg.2.1 _ hp (congrArg Prod.snd heq)
            exact hne (Or.inr (Prod.ext h1 h2))
        · rw [List.mem_singleton.mp hwRest] at heq
          rcases hcell with hc | hc <;> rw [hc] at heq
          · have h1 : e.1.2 = p := hinj _ hg.2.1 _ hp (congrArg Prod.fst heq)
            have h2 : e.1.1 = q := hinj _ hg.1 _ hq (congrArg Prod.snd heq)
            exact hne (Or.inr (Prod.ext h2 h1))
          · have h1 : e.1.2 = q := hinj _ hg.2.1 _ hq (congrArg Prod.fst heq)
            have h2 : e.1.1 = p := hinj _ hg.1 _ hp (congrArg Prod.snd heq)
            exact hne (Or.inl (Prod.ext h2 h1))
      · rw [if_neg hg] at hw
        exact absurd hw (List.not_mem_nil w)
    constructor
    · intro hbid hask
      have hx1 : lastAssoc (priceTransitWrite c ((p, q), tk))
          (c.currency2index p, c.currency2index q) = some tk.bid := by
        unfold priceTransitWrite
        dsimp only
        rw [if_pos ⟨hp, hq, hask, hbid⟩]
        exact lastAssoc_pair_first _ _ _ rfl
          (fun heq => hiq ((congrArg Prod.fst heq).symm))
      have hx2 : lastAssoc (priceTransitWrite c ((p, q), tk))
          (c.currency2index q, c.currency2index p) = some (1 / tk.ask) := by
        unfold priceTransitWrite
        dsimp only
        rw [if_pos ⟨hp, hq, hask, hbid⟩]
        exact lastAssoc_pair_second _ _ _ rfl
      constructor
      · unfold update_transit_price applyWrites transitWrites
        rw [lastAssoc_append,
          lastAssoc_flatMap_avoid c.inter_convert_list (interTransitWrite c) _
            (hinterAvoid p q hp hq hsame),
          lastAssoc_flatMap_unique c.price (priceTransitWrite c) _
            (fun e => decide (e.1 = (p, q) ∨ e.1 = (q, p))) ((p, q), tk) _
            huniqP (hpriceOthers _ (Or.inl rfl)) hx1]
        rfl
      · unfold update_transit_price applyWrites transitWrites
        rw [lastAssoc_append,
          lastAssoc_flatMap_avoid c.inter_convert_list (interTransitWrite c) _
            (hinterAvoid q p hq hp hsame.symm),
          lastAssoc_flatMap_unique c.price (priceTransitWrite c) _
            (fun e => decide (e.1 = (p, q) ∨ e.1 = (q, p))) ((p, q), tk) _
            huniqP (hpriceOthers _ (Or.inr rfl)) hx2]
        rfl
    · intro hzero
      have hpnone : ∀ cell : Cell,
          cell = (c.currency2index p, c.currency2index q) ∨
          cell = (c.currency2index q, c.currency2index p) →
          lastAssoc (c.price.flatMap (priceTransitWrite c)) cell = none := by
        intro cell hcell
        apply lastAssoc_flatMap_avoid
        intro e he w hw
        by_cases hpm : e.1 = (p, q) ∨ e.1 = (q, p)
        · have hef : e = ((p, q), tk) := by
            have hmemfil : e ∈ c.price.filter
                (fun e => decide (e.1 = (p, q) ∨ e.1 = (q, p))) :=
              List.mem_filter.mpr ⟨he, decide_eq_true hpm⟩
            rw [huniqP] at hmemfil
            exact List.mem_singleton.mp hmemfil
          rw [hef] at hw
          unfold priceTransitWrite at hw
          rw [if_neg] at hw
          · exact absurd hw (List.not_mem_nil w)
          · dsimp only
            intro hcon
            rcases hzero with hz | hz
            · exact hcon.2.2.2 hz
            · exact hcon.2.2.1 hz
        · exact hpriceOthers cell hcell e he (decide_eq_false hpm) w hw
      constructor
      · unfold update_transit_price applyWrites transitWrites
        rw [lastAssoc_append,
          lastAssoc_flatMap_avoid c.inter_convert_list (interTransitWrite c) _
            (hinterAvoid p q hp hq hsame),
          hpnone _ (Or.inl rfl)]
        rfl
      · unfold update_transit_price applyWrites transitWrites
        rw [lastAssoc_append,
          lastAssoc_flatMap_avoid c.inter_convert_list (interTransitWrite c) _
            (hinterAvoid q p hq hp hsame.symm),
          hpnone _ (Or.inr rfl)]
        rfl
  · intro f t hmem huniq
    obtain ⟨hf1, hf2, hffx⟩ := hinterAll (f, t) hmem
    have hiq : c.currency2index f ≠ c.currency2index t :=
      fun h => hffx (by rw [hinj f hf1 t hf2 h])
    have hothers : ∀ cell : Cell,
        cell = (c.currency2index f, c.currency2index t) ∨
        cell = (c.currency2index t, c.currency2index f) →
        ∀ pr ∈ c.inter_convert_list,
        (fun e => decide (e = (f, t) ∨ e = (t, f))) pr = false →
        ∀ w ∈ interTransitWrite c pr, w.1 ≠ cell := by
      intro cell hcell pr hpr hpm w hw
      have hne : ¬(pr = (f, t) ∨ pr = (t, f)) := of_decide_eq_false hpm
      obtain ⟨hpr1, hpr2, _⟩ := hinterAll pr hpr
      intro heq
      unfold interTransitWrite at hw
      rcases List.mem_cons.mp hw with hwEq | hwRest
      · rw [hwEq] at heq
        rcases hcell with hc | hc <;> rw [hc] at heq
        · have h1 : pr.1 = f := hinj _ hpr1 _ hf1 (congrArg Prod.fst heq)
          have h2 : pr.2 = t := hinj _ hpr2 _ hf2 (congrArg Prod.snd heq)
          exact hne (Or.inl (Prod.ext h1 h2))
        · have h1 : pr.1 = t := hinj _ hpr1 _ hf2 (congrArg Prod.fst heq)
          have h2 : pr.2 = f := hinj _ hpr2 _ hf1 (congrArg Prod.snd heq)
          exact hne (Or.inr (Prod.ext h1 h2))
      · rw [List.mem_singleton.mp hwRest] at heq
        rcases hcell with hc | hc <;> rw [hc] at heq
        · have h1 : pr.2 = f := hinj _ hpr2 _ hf1 (congrArg Prod.fst heq)
          have h2 : pr.1 = t := hinj _ hpr1 _ hf2 (congrArg Prod.snd heq)
          exact hne (Or.inr (Prod.ext h2 h1))
        · have h1 : pr.2 = t := hinj _ hpr2 _ hf2 (congrArg Prod.fst heq)
          have h2 : pr.1 = f := hinj _ hpr1 _ hf1 (congrArg Prod.snd heq)
          exact hne (Or.inl (Prod.ext h2 h1))
    have hx1 : lastAssoc (interTransitWrite c (f, t))
        (c.currency2index f, c.currency2index t)
        = some (if (alookup c.withdrawal_fee f).isSome then 1 else 0) := by
      unfold interTransitWrite
      dsimp only
      exact lastAssoc_pair_first _ _ _ rfl
        (fun heq => hiq ((congrArg Prod.fst heq).symm))
    have hx2 : lastAssoc (interTransitWrite c (f, t))
        (c.currency2index t, c.currency2index f)
        = some (if (alookup c.withdrawal_fee t).isSome then 1 else 0) := by
      unfold interTransitWrite
      dsimp only
      exact lastAssoc_pair_second _ _ _ rfl
    constructor
    · unfold update_transit_price applyWrites transitWrites
      rw [lastAssoc_append,
        lastAssoc_flatMap_unique c.inter_convert_list (interTransitWrite c) _
          (fun e => decide (e = (f, t) ∨ e = (t, f))) (f, t) _ huniq
          (hothers _ (Or.inl rfl)) hx1]
      rfl
    · unfold update_transit_price applyWrites transitWrites
      rw [lastAssoc_append,
        lastAssoc_flatMap_unique c.inter_convert_list (interTransitWrite c) _
          (fun e => decide (e = (f, t) ∨ e = (t, f))) (f, t) _ huniq
          (hothers _ (Or.inr rfl)) hx2]
      rfl

/-- Witness for `transit_price_entries`: `snapCfgExample`'s listed pair
`e1_BTC/e1_USDT` (bid 20000, ask 20010) and inter-exchange candidate
`(e1_BTC, e2_BTC)` (fee defined on `e1` only). -/
theorem transit_price_entries_witness :
    (update_transit_price snapCfgExample
        (snapCfgExample.currency2index ("e1", "BTC"),
         snapCfgExample.currency2index ("e1", "USDT"))
      = (⟨20000, 20010, some 3⟩ : Ticker).bid ∧
     update_transit_price snapCfgExample
        (snapCfgExample.currency2index ("e1", "USDT"),
         snapCfgExample.currency2index ("e1", "BTC"))
      = 1 / (⟨20000, 20010, some 3⟩ : Ticker).ask) ∧
    (update_transit_price snapCfgExample
        (snapCfgExample.currency2index ("e1", "BTC"),
         snapCfgExample.currency2index ("e2", "BTC"))
      = (if (alookup snapCfgExample.withdrawal_fee ("e1", "BTC")).isSome
         then 1 else 0) ∧
     update_transit_price snapCfgExample
        (snapCfgExample.currency2index ("e2", "BTC"),
         snapCfgExample.currency2index ("e1", "BTC"))
      = (if (alookup snapCfgExample.withdrawal_fee ("e2", "BTC")).isSome
         then 1 else 0)) := by
  have h := transit_price_entries snapCfgExample (by decide) (by decide) (by decide)
  exact ⟨(h.1 ("e1", "BTC") ("e1", "USDT") ⟨20000, 20010, some 3⟩ (by decide)
      (by decide) (by decide) (by decide) (by decide)).1
      (by norm_num) (by norm_num),
    h.2 ("e1", "BTC") ("e2", "BTC") (by decide) (by decide)⟩

/-! ## Claim C7 -/

theorem dictSet_not_mem {κ ν : Type} [DecidableEq κ] (d : List (κ × ν)) (k : κ)
    (v : ν) (h : alookup d k = none) : dictSet d k v = d ++ [(k, v)] := by
  induction d with
  | nil => rfl
  | cons kv rest ih =>
    rw [alookup] at h
    by_cases hk : kv.1 = k
    · rw [if_pos hk] at h
      exact absurd h (by simp)
    · rw [if_neg hk] at h
      rw [dictSet, if_neg hk, ih h, List.cons_append]

theorem pyRound_intCast (n : ℤ) : pyRound (n : ℚ) = n := by
  unfold pyRound
  rw [Int.floor_intCast, sub_self, if_pos (by norm_num : (0 : ℚ) < 1 / 2)]

theorem roundToDigits_exact (d n : ℤ) :
    roundToDigits d ((n : ℚ) * (10 : ℚ) ^ (-d)) = (n : ℚ) * (10 : ℚ) ^ (-d) := by
  unfold roundToDigits
  have h10 : (10 : ℚ) ≠ 0 := by norm_num
  have hmul : (n : ℚ) * (10 : ℚ) ^ (-d) * (10 : ℚ) ^ d = (n : ℚ) := by
    rw [mul_assoc, ← zpow_add₀ h10]
    simp
  rw [hmul, pyRound_intCast, zpow_neg, div_eq_mul_inv]

theorem find?_cons_pos {α : Type} (p : α → Bool) (a : α) (l : List α)
    (h : p a = true) : (a :: l).find? p = some a := by
  simp [List.find?, h]

theorem find?_cons_neg {α : Type} (p : α → Bool) (a : α) (l : List α)
    (h : p a = false) : (a :: l).find? p = l.find? p := by
  simp [List.find?, h]

theorem uniq_row_filterMap (m : ExtractModel)
    (xs : Fin m.path_n → Fin m.orderbook_n → ℚ) (i : Fin m.path_n)
    (l : List (Fin m.orderbook_n)) (hnd : l.Nodup)
    (huniq : ∀ a ∈ l, ∀ b ∈ l, zsOf m xs i a ≠ 0 → zsOf m xs i b ≠ 0 → a = b) :
    l.filterMap (fun j => if zsOf m xs i j ≠ 0 then some (i, j) else none)
      = match l.find? (fun j => decide (zsOf m xs i j ≠ 0)) with
        | some j => [(i, j)]
        | none => [] := by
  induction l with
  | nil => rfl
  | cons j l ih =>
    by_cases hz : zsOf m xs i j ≠ 0
    · rw [List.filterMap_cons, if_pos hz,
        find?_cons_pos (fun j => decide (zsOf m xs i j ≠ 0)) j l (decide_eq_true hz)]
      have hrest : l.filterMap
          (fun j => if zsOf m xs i j ≠ 0 then some (i, j) else none) = [] := by
        rw [List.filterMap_eq_nil_iff]
        intro b hb
        have hnb : ¬ zsOf m xs i b ≠ 0 := by
          intro hzb
          have hbj : b = j :=
            huniq b (List.mem_cons_of_mem j hb) j (List.mem_cons_self j l) hzb hz
          rw [hbj] at hb
          exact (List.nodup_cons.mp hnd).1 hb
        rw [if_neg hnb]
      rw [hrest]
    · rw [List.filterMap_cons, if_neg hz,
        find?_cons_neg (fun j => decide (zsOf m xs i j ≠ 0)) j l (decide_eq_false hz)]
      exact ih (List.nodup_cons.mp hnd).2
        (fun a ha b hb => huniq a (List.mem_cons_of_mem j ha) b (List.mem_cons_of_mem j hb))

theorem fold_extract (m : ExtractModel)
    (xs : Fin m.path_n → Fin m.orderbook_n → ℚ)
    (hone : ∀ (i : Fin m.path_n) (j j' : Fin m.orderbook_n),
      zsOf m xs i j ≠ 0 → zsOf m xs i j' ≠ 0 → j = j')
    (hkeys : ∀ i i', tradeKey m i = tradeKey m i' → i = i') :
    ∀ l : List (Fin m.path_n), l.Nodup →
    ∀ d : List ((Node × Node) × TradeRec),
    (∀ i ∈ l, ∀ kv ∈ d, kv.1 ≠ tradeKey m i) →
    (l.flatMap (fun i => (List.finRange m.orderbook_n).filterMap
        (fun j => if zsOf m xs i j ≠ 0 then some (i, j) else none))).foldl
      (fun dd ij => dictSet dd (tradeKey m ij.1) (tradeVal m xs ij.1 ij.2)) d
      = d ++ l.filterMap (fun i =>
          ((List.finRange m.orderbook_n).find?
            (fun j => decide (zsOf m xs i j ≠ 0))).map
           (fun j => (tradeKey m i, tradeVal m xs i j))) := by
  intro l
  induction l with
  | nil =>
    intro _ d _
    simp
  | cons i l ih =>
    intro hnd d hd
    rw [List.flatMap_cons, List.foldl_append,
      uniq_row_filterMap m xs i (List.finRange m.orderbook_n)
        (List.nodup_finRange _) (fun a _ b _ => hone i a b),
      List.filterMap_cons]
    cases hf : (List.finRange m.orderbook_n).find?
        (fun j => decide (zsOf m xs i j ≠ 0)) with
    | none =>
      simp only [List.foldl_nil, Option.map_none']
      exact ih (List.nodup_cons.mp hnd).2 d
        (fun i' hi' => hd i' (List.mem_cons_of_mem i hi'))
    | some j =>
      simp only [List.foldl_cons, List.foldl_nil, Option.map_some']
      have hkey_not : alookup d (tradeKey m i) = none :=
        alookup_eq_none d _
          (fun kv hkv => hd i (List.mem_cons_self i l) kv hkv)
      rw [dictSet_not_mem d _ _ hkey_not]
      rw [ih (List.nodup_cons.mp hnd).2 (d ++ [(tradeKey m i, tradeVal m xs i j)]) ?hd']
      · rw [List.append_assoc]
        rfl
      case hd' =>
        intro i' hi' kv hkv
        rcases List.mem_append.mp hkv with hkd | hks
        · exact hd i' (List.mem_cons_of_mem i hi') kv hkd
        · rw [List.mem_singleton.mp hks]
          intro heq
          have hii : i = i' := hkeys i i' heq
          rw [hii] at hnd
          exact (List.nodup_cons.mp hnd).1 hi'

/-- Claim C7 counterexample: on the two-leg intra-exchange cycle `A→B→A`
(leg 0 non-reversed, leg 1 reversed) both legs emit the same
exchange-oriented key, so line 171's `self.trade_solution[trade] = …`
overwrites the first leg's record: both legs have nonzero `z`, yet the
emitted map has a single entry — refuting "the trade map contains exactly
the legs with a nonzero z entry". -/
theorem trade_solution_key_collision_counterexample :
    tradeKey extractModelCollision ⟨0, by decide⟩
      = tradeKey extractModelCollision ⟨1, by decide⟩ ∧
    (nonzeroZ extractModelCollision (fun _ _ => 3)).length = 2 ∧
    (getSolutionExtract extractModelCollision (fun _ _ => 3)).length = 1 := by
  have hz : ∀ (i : Fin 2) (j : Fin 1),
      zsOf extractModelCollision (fun _ _ => 3) i j ≠ 0 := by
    intro i j
    show (3 : ℚ) * (10 : ℚ) ^ (-(2 : ℤ)) ≠ 0
    positivity
  have hlist : nonzeroZ extractModelCollision (fun _ _ => 3)
      = [(⟨0, by decide⟩, ⟨0, by decide⟩), (⟨1, by decide⟩, ⟨0, by decide⟩)] := by
    simp only [nonzeroZ]
    rw [show List.finRange extractModelCollision.path_n
        = [⟨0, by decide⟩, ⟨1, by decide⟩] from rfl,
      show List.finRange extractModelCollision.orderbook_n
        = [⟨0, by decide⟩] from rfl]
    simp [hz]
  refine ⟨rfl, ?_, ?_⟩
  · rw [hlist]
    rfl
  · show ((nonzeroZ extractModelCollision (fun _ _ => 3)).foldl
      (fun d ij => dictSet d (tradeKey extractModelCollision ij.1)
        (tradeVal extractModelCollision (fun _ _ => 3) ij.1 ij.2)) []).length = 1
    rw [hlist]
    rfl

/-- Claim C7 (amended): the emitted trade map of `_get_solution` contains
exactly the legs with a nonzero `z` entry, in ascending leg order —
*provided distinct legs emit distinct exchange-oriented keys*; each entry's
key is the cycle-directed pair (reversed to exchange orientation for
reversed legs), its volume is the `z` value rounded to the leg's precision
digits, its price is the chosen layer's price and its direction is
`bid_sell` for non-reversed and `ask_buy` for reversed legs; the rounding
is exact on precision-step multiples (the `z` of any integer solver value),
so the emitted volume is a precision-step multiple.  Without the
distinct-keys hypothesis the claim fails: in a two-leg intra-exchange cycle
`A→B→A` (second leg reversed) both legs key to the same listed pair and the
OrderedDict assignment of line 171 overwrites the earlier leg (see the
counterexample). -/
theorem trade_solution_extraction (m : ExtractModel)
    (xs : Fin m.path_n → Fin m.orderbook_n → ℚ)
    (hone : ∀ (i : Fin m.path_n) (j j' : Fin m.orderbook_n),
      zsOf m xs i j ≠ 0 → zsOf m xs i j' ≠ 0 → j = j')
    (hkeys : ∀ i i', tradeKey m i = tradeKey m i' → i = i') :
    getSolutionExtract m xs
      = (List.finRange m.path_n).filterMap (fun i =>
          ((List.finRange m.orderbook_n).find?
            (fun j => decide (zsOf m xs i j ≠ 0))).map
           (fun j => (tradeKey m i, tradeVal m xs i j))) ∧
    (∀ d n : ℤ, roundToDigits d ((n : ℚ) * (10 : ℚ) ^ (-d))
      = (n : ℚ) * (10 : ℚ) ^ (-d)) := by
  constructor
  · have h := fold_extract m xs hone hkeys (List.finRange m.path_n)
      (List.nodup_finRange _) []
      (fun i _ kv hkv => absurd hkv (List.not_mem_nil kv))
    rw [List.nil_append] at h
    exact h
  · exact fun d n => roundToDigits_exact d n

/-- Witness for `trade_solution_extraction`: the one-leg model
`extractModelExample` with solver value 3 on its single cell. -/
theorem trade_solution_extraction_witness :
    getSolutionExtract extractModelExample (fun _ _ => 3)
      = (List.finRange extractModelExample.path_n).filterMap (fun i =>
          ((List.finRange extractModelExample.orderbook_n).find?
            (fun j => decide (zsOf extractModelExample (fun _ _ => 3) i j ≠ 0))).map
           (fun j => (tradeKey extractModelExample i,
             tradeVal extractModelExample (fun _ _ => 3) i j))) ∧
    (∀ d n : ℤ, roundToDigits d ((n : ℚ) * (10 : ℚ) ^ (-d))
      = (n : ℚ) * (10 : ℚ) ^ (-d)) :=
  trade_solution_extraction extractModelExample (fun _ _ => 3)
    (by
      intro i j j' _ _
      have h1 : j.val < 1 := j.isLt
      have h2 : j'.val < 1 := j'.isLt
      exact Fin.ext (by omega))
    (by
      intro i i' _
      have h1 : i.val < 1 := i.isLt
      have h2 : i'.val < 1 := i'.isLt
      exact Fin.ext (by omega))

end CryptoArb
